import Mathlib

/-!
# pso-go: a shallow embedding of the vectors, the bounds, the particle update and the coordination loop

The Go sources are `float64/float64.go` (package `float64`), `particle.go` and
`solver.go` (package `pso`).

Modelling decisions.

* Where arithmetic is done, a `float64` is read as an exact rational number
  (`ℚ`): no rounding, no infinities, no NaN.  Division by zero is outside that reading (`ℚ` gives `0`
  where Go gives an infinity or NaN), so statements about `Div` assume non-zero
  divisors.  Storage, indexing, allocation and the bounds test do no arithmetic
  and are written for any number type with a decidable `<`, so that
  `NewRangeWithInf`, which stores the two infinities, can be read over the
  rationals extended by `-∞` and `+∞` (`ExtFloat`), and the bounds test can be
  run on NaN, with which every comparison is false (`NaNFloat`).
* Go slices are references into shared storage.  The storage is one flat
  address space of `float64` cells (`Heap.cells`) with a bump allocator
  (`Heap.next`); a slice is the usual header of base pointer, length and
  capacity, and a nil slice has no base pointer.
* A Go `panic` is the `Except.error` branch carrying the message; the storage at
  the moment of the panic is dropped.
* An interface value is a closed sum of the nil interface, the `float64`
  implementation and an `other` implementation identified by a type tag.
* `Particle.iteration` is one pass through the body of the loop of
  `Particle.Start`; the numbers that `Random` draws and the value of
  `globalBest` that the pass reads are its arguments, and the report it sends is
  part of its result.
* The loop of `Solver.Start` is run on the sequence of reports that arrive, each
  with the storage in which it is evaluated and the value of `done` read after
  it; the sends and closes it issues are recorded in order, not executed.
* Which goroutine receives from and sends on which channel is listed by
  `Solver.StartOps`; a value passes over an unbuffered channel only between a
  send and a receive that name the same channel.  `Solver.StartExecuted`
  executes a recorded run against the receives of the workers: it stops at the
  first send that no worker receives.
-/

/-- A panic message. -/
abbrev Panic := String

/-- Flat storage of `float64` cells with a bump allocator, the cells read in
the number type `α`. -/
structure HeapOf (α : Type) where
  cells : Nat → α
  next : Nat

/-- Storage whose cells are read as exact rationals. -/
abbrev Heap := HeapOf ℚ

/-- A `float64` read as an exact rational or one of the two infinities. -/
abbrev ExtFloat := WithBot (WithTop ℚ)

/-- A `float64` read as NaN or an exact rational. -/
inductive NaNFloat
  | nan
  | num (q : ℚ)
deriving DecidableEq

/-- The comparison `x < y` of Go on `float64`: false when either side is NaN. -/
def NaNFloat.lt : NaNFloat → NaNFloat → Bool
  | .num x, .num y => decide (x < y)
  | _, _ => false

/-- The comparison `x <= y` of Go on `float64`: false when either side is NaN. -/
def NaNFloat.le : NaNFloat → NaNFloat → Bool
  | .num x, .num y => decide (x ≤ y)
  | _, _ => false

instance : LT NaNFloat := ⟨fun x y => NaNFloat.lt x y = true⟩

instance : LE NaNFloat := ⟨fun x y => NaNFloat.le x y = true⟩

instance (x y : NaNFloat) : Decidable (x < y) :=
  inferInstanceAs (Decidable (NaNFloat.lt x y = true))

instance (x y : NaNFloat) : Decidable (x ≤ y) :=
  inferInstanceAs (Decidable (NaNFloat.le x y = true))

namespace float64

/-- `type Float64Array []float64`: a slice header. `ptr = none` is the nil slice. -/
structure Float64Array where
  ptr : Option Nat
  len : Nat
  cap : Nat
deriving DecidableEq, Repr

/-- Address of element `i` of a slice. -/
def Float64Array.addr (a : Float64Array) (i : Nat) : Nat :=
  a.ptr.getD 0 + i

/-- The expression `a[i]` read from storage (index already known to be in range). -/
def Float64Array.read {α : Type} (h : HeapOf α) (a : Float64Array) (i : Nat) : α :=
  h.cells (a.addr i)

/-- The assignment `a[i] = x`. -/
def Float64Array.write {α : Type} (h : HeapOf α) (a : Float64Array) (i : Nat) (x : α) :
    HeapOf α :=
  { h with cells := Function.update h.cells (a.addr i) x }

/-- All elements of a slice, in index order. -/
def Float64Array.toList (h : Heap) (a : Float64Array) : List ℚ :=
  (List.range a.len).map (a.read h)

/-- The builtin `make([]float64, len, cap)`: fresh zeroed cells. -/
def make {α : Type} [Zero α] (h : HeapOf α) (len cap : Nat) : Float64Array × HeapOf α :=
  ({ ptr := some h.next, len := len, cap := cap },
   { cells := fun p => if h.next ≤ p ∧ p < h.next + cap then 0 else h.cells p,
     next := h.next + cap })

/-- The builtin `copy(dst, src)`: copies `min(len(dst), len(src))` elements from
`src` into `dst`, reading the source as it was before the call. -/
def copy (h : Heap) (dst src : Float64Array) : Heap :=
  { h with cells := fun p =>
      if dst.addr 0 ≤ p ∧ p < dst.addr 0 + min dst.len src.len
      then h.cells (src.addr (p - dst.addr 0)) else h.cells p }

end float64

namespace reflect

/-- The values of `reflect.Type` that the code can observe: the dynamic type of
a `float64.Float64Array`, or of some other implementation named by a tag. -/
inductive RType
  | float64Array
  | other (tag : Nat)
deriving DecidableEq, Repr

end reflect

namespace pso

/-- The interface `Values`: the nil interface, a `float64.Float64Array`, or a
value of another implementing type. -/
inductive Values
  | nil
  | float64Array (a : float64.Float64Array)
  | other (tag : Nat)
deriving DecidableEq, Repr

/-- The interface `EvalValue`: nil, a `float64.EvalValue`, or another
implementing type. -/
inductive EvalValue
  | nil
  | float64 (e : ℚ)
  | other (tag : Nat)
deriving DecidableEq, Repr

end pso

namespace reflect

/-- `reflect.TypeOf` on a `pso.Values` interface value (nil for the nil interface). -/
def TypeOf : pso.Values → Option RType
  | .nil => none
  | .float64Array _ => some .float64Array
  | .other tag => some (.other tag)

end reflect

namespace float64

/-- `type EvalValue float64`. -/
abbrev EvalValue := ℚ

/-- `EvalValue.CompareTo`: the type assertion, then the two-case switch, then
`return 0`. -/
def EvalValue.CompareTo (e : EvalValue) (evalValue : pso.EvalValue) : Except Panic Int :=
  match evalValue with
  | .float64 e2 =>
    if e > e2 then .ok 1
    else if e < e2 then .ok (-1)
    else .ok 0
  | _ => .error "Cannot compare to another type."

/-- The loop `for i := range a { a[i] op= a2[i] }` shared by `Add`, `Sub`, `Mul`
and `Div`: `n` iterations remain, `i` is the current index.  Indexing `a2[i]`
past `len(a2)` is a run-time panic. -/
def assignLoop (f : ℚ → ℚ → ℚ) (a a2 : Float64Array) : Nat → Nat → Heap → Except Panic Heap
  | 0, _, h => .ok h
  | n + 1, i, h =>
    if i < a2.len then
      assignLoop f a a2 n (i + 1) (a.write h i (f (a.read h i) (a2.read h i)))
    else .error "runtime error: index out of range"

/-- `Float64Array.Add`. -/
def Float64Array.Add (arry : Float64Array) (values : pso.Values) (h : Heap) :
    Except Panic (pso.Values × Heap) :=
  match values with
  | .float64Array arry2 =>
    match assignLoop (fun x y => x + y) arry arry2 arry.len 0 h with
    | .ok h' => .ok (.float64Array arry, h')
    | .error e => .error e
  | _ => .error "Cannot add another type."

/-- `Float64Array.Sub`. -/
def Float64Array.Sub (arry : Float64Array) (values : pso.Values) (h : Heap) :
    Except Panic (pso.Values × Heap) :=
  match values with
  | .float64Array arry2 =>
    match assignLoop (fun x y => x - y) arry arry2 arry.len 0 h with
    | .ok h' => .ok (.float64Array arry, h')
    | .error e => .error e
  | _ => .error "Cannot substract another type."

/-- `Float64Array.Mul`. -/
def Float64Array.Mul (arry : Float64Array) (values : pso.Values) (h : Heap) :
    Except Panic (pso.Values × Heap) :=
  match values with
  | .float64Array arry2 =>
    match assignLoop (fun x y => x * y) arry arry2 arry.len 0 h with
    | .ok h' => .ok (.float64Array arry, h')
    | .error e => .error e
  | _ => .error "Cannot multiply another type."

/-- `Float64Array.Div`. -/
def Float64Array.Div (arry : Float64Array) (values : pso.Values) (h : Heap) :
    Except Panic (pso.Values × Heap) :=
  match values with
  | .float64Array arry2 =>
    match assignLoop (fun x y => x / y) arry arry2 arry.len 0 h with
    | .ok h' => .ok (.float64Array arry, h')
    | .error e => .error e
  | _ => .error "Cannot divide another type."

/-- `Float64Array.Clone`: `a2 := make([]float64, len(a), cap(a))`, then
`copy(a, a2)` (destination `a`, source `a2`), then `return Float64Array(a2)`. -/
def Float64Array.Clone (arry : Float64Array) (h : Heap) : pso.Values × Heap :=
  let r := make h arry.len arry.cap
  (.float64Array r.1, copy r.2 arry r.1)

/-- `type Range struct { min, max Float64Array }`. -/
structure Range where
  min : Float64Array
  max : Float64Array
deriving DecidableEq, Repr

/-- `NewRange`: the three-case switch, then the struct literal. -/
def NewRange (min max : Float64Array) : Except Panic Range :=
  if min.ptr = none then .error "min cannot be nil."
  else if max.ptr = none then .error "max cannot be nil."
  else if min.len ≠ max.len then .error "length of min and max have to be same."
  else .ok { min := min, max := max }

/-- The loop of `Range.In`: `n` iterations remain, `i` is the current index.
`a[i] < min[i] || a[i] > max[i]` is evaluated left to right with short
circuit; indexing `min` or `max` out of range is a run-time panic. -/
def inLoop {α : Type} [LT α] [∀ x y : α, Decidable (x < y)] (h : HeapOf α)
    (a min max : Float64Array) : Nat → Nat → Except Panic Bool
  | 0, _ => .ok true
  | n + 1, i =>
    if i < min.len then
      if a.read h i < min.read h i then .ok false
      else if i < max.len then
        if a.read h i > max.read h i then .ok false
        else inLoop h a min max n (i + 1)
      else .error "runtime error: index out of range"
    else .error "runtime error: index out of range"

/-- `Range.In`. -/
def Range.In {α : Type} [LT α] [∀ x y : α, Decidable (x < y)] (r : Range)
    (values : pso.Values) (h : HeapOf α) : Except Panic Bool :=
  match values with
  | .float64Array arry =>
    if arry.len ≠ r.min.len then
      .error "length of values have to be same with minx and max."
    else inLoop h arry r.min r.max arry.len 0
  | _ => .error "values have to be float64.Float64Array"

/-- `Range.Type`: `reflect.TypeOf(r.min)`. -/
def Range.Type (r : Range) : Option reflect.RType :=
  reflect.TypeOf (.float64Array r.min)

/-- The four element-wise operations, to state one property of all of them. -/
inductive Op
  | add | sub | mul | div
deriving DecidableEq, Repr

/-- The method of `Float64Array` that an `Op` names. -/
def Op.run : Op → Float64Array → pso.Values → Heap → Except Panic (pso.Values × Heap)
  | .add => Float64Array.Add
  | .sub => Float64Array.Sub
  | .mul => Float64Array.Mul
  | .div => Float64Array.Div

/-- The arithmetic an `Op` stands for, on exact numbers. -/
def Op.apply : Op → ℚ → ℚ → ℚ
  | .add => fun x y => x + y
  | .sub => fun x y => x - y
  | .mul => fun x y => x * y
  | .div => fun x y => x / y

/-- Two slices share no cell within their lengths. -/
def Float64Array.Disjoint (a b : Float64Array) : Prop :=
  a.addr a.len ≤ b.addr 0 ∨ b.addr b.len ≤ a.addr 0

end float64

namespace pso

/-- The interface `Range`: nil, a `*float64.Range`, or another implementation
whose `Type()` reports the given value. -/
inductive Range
  | nil
  | float64 (r : float64.Range)
  | other (type : Option reflect.RType)
deriving DecidableEq, Repr

/-- The method call `valuesRange.Type()`; on the nil interface it is a nil
dereference. -/
def Range.Type : Range → Except Panic (Option reflect.RType)
  | .nil => .error "runtime error: invalid memory address or nil pointer dereference"
  | .float64 r => .ok r.Type
  | .other type => .ok type

/-- A channel of `Values`, by identity. -/
structure Chan where
  id : Nat
deriving DecidableEq, Repr

/-- `type Particle struct`. -/
structure Particle where
  position : Values
  velocity : Values
  valuesRange : Range
  evalValue : EvalValue
  best : Values
  ch : Chan
deriving DecidableEq, Repr

/-- `NewParticle`: the four-case switch in source order, then the struct
literal.  `fresh` is the channel that `make(chan Values)` returns. -/
def NewParticle (position velocity : Values) (valuesRange : Range) (fresh : Chan) :
    Except Panic Particle :=
  if position = .nil then .error "position cannot be nil."
  else if velocity = .nil then .error "velocity cannot be nil."
  else if reflect.TypeOf position ≠ reflect.TypeOf velocity then
    .error "position and velocity have to be same type."
  else
    match valuesRange.Type with
    | .error e => .error e
    | .ok t =>
      if reflect.TypeOf position ≠ t then
        .error "type of position and valuesRange.Type() have to be same."
      else
        .ok { position := position, velocity := velocity, valuesRange := valuesRange,
              evalValue := .nil, best := .nil, ch := fresh }

/-- `Particle.Position`. -/
def Particle.Position (p : Particle) : Values := p.position

/-- `Particle.Velocity`. -/
def Particle.Velocity (p : Particle) : Values := p.velocity

/-- `Particle.Range`. -/
def Particle.Range (p : Particle) : Range := p.valuesRange

/-- `Particle.EvalValue`. -/
def Particle.EvalValue (p : Particle) : EvalValue := p.evalValue

/-- `Particle.Channel`. -/
def Particle.Channel (p : Particle) : Chan := p.ch

/-- `Particle.Best`. -/
def Particle.Best (p : Particle) : Values := p.best

/-- The interface `TargetFunc`: nil, a `float64.TargetFunc` (a Go function from
a `Float64Array` to a `float64.EvalValue`, which may read storage), or another
implementation. -/
inductive TargetFunc
  | nil
  | float64 (f : Heap → float64.Float64Array → ℚ)
  | other (tag : Nat)

/-- `type Param struct`. -/
structure Param where
  w : Values
  c1 : Values
  c2 : Values
deriving DecidableEq, Repr

/-- `NewParam`: the four-case switch in source order, then the struct literal. -/
def NewParam (w c1 c2 : Values) : Except Panic Param :=
  if w = .nil then .error "w cannot be nil."
  else if c1 = .nil then .error "c1 cannot be nil."
  else if c2 = .nil then .error "c2 cannot be nil."
  else if reflect.TypeOf w ≠ reflect.TypeOf c1 ∨ reflect.TypeOf w ≠ reflect.TypeOf c2 then
    .error "all parameter type have to be same."
  else .ok { w := w, c1 := c1, c2 := c2 }

/-- `Param.W`. -/
def Param.W (p : Param) : Values := p.w

/-- `Param.C1`. -/
def Param.C1 (p : Param) : Values := p.c1

/-- `Param.C2`. -/
def Param.C2 (p : Param) : Values := p.c2

/-- `type Solver struct`.  The slice `[]*Particle` is `none` when nil and
otherwise the list of its elements, each a possibly nil pointer; `*Param` is a
possibly nil pointer. -/
structure Solver where
  f : TargetFunc
  particles : Option (List (Option Particle))
  param : Option Param
  best : Values

/-- The builtin `len` on a `[]*Particle`. -/
def lenParticles : Option (List (Option Particle)) → Nat
  | none => 0
  | some ps => ps.length

/-- `NewSolver`. -/
def NewSolver (f : TargetFunc) (particles : Option (List (Option Particle)))
    (param : Option Param) : Except Panic Solver :=
  if particles = none then .error "particles cannot be nil."
  else if lenParticles particles ≤ 0 then
    .error "The number of particles have to take more than 0."
  else .ok { f := f, particles := particles, param := param, best := .nil }

/-- `Solver.TargetFunc`. -/
def Solver.TargetFunc (s : Solver) : TargetFunc := s.f

/-- `Solver.Particles`: the copy is made and dropped; the original slice is returned. -/
def Solver.Particles (s : Solver) : Option (List (Option Particle)) := s.particles

/-- `Solver.Param`. -/
def Solver.Param (s : Solver) : Option Param := s.param

/-- `Solver.Best`. -/
def Solver.Best (s : Solver) : Values := s.best

end pso

namespace float64

/-- `TargetFunc.Eval` of the `float64` package: a non-nil argument must be a
`Float64Array`; the nil interface is passed on as the nil slice. -/
def TargetFunc.Eval (f : Heap → Float64Array → ℚ) (values : pso.Values) (h : Heap) :
    Except Panic pso.EvalValue :=
  match values with
  | .nil => .ok (.float64 (f h { ptr := none, len := 0, cap := 0 }))
  | .float64Array arry => .ok (.float64 (f h arry))
  | .other _ => .error "values have to be Float64Array."

end float64

namespace pso

/-- Method call `v.Clone()` through the `Values` interface.  A nil interface is
a nil dereference; the methods of another implementation are not part of this
development and are reported as an error. -/
def Values.Clone (v : Values) (h : Heap) : Except Panic (Values × Heap) :=
  match v with
  | .nil => .error "runtime error: invalid memory address or nil pointer dereference"
  | .float64Array a => .ok (a.Clone h)
  | .other _ => .error "method of an implementation outside this development"

/-- Method call `v.Add(values)` through the `Values` interface. -/
def Values.Add (v values : Values) (h : Heap) : Except Panic (Values × Heap) :=
  match v with
  | .nil => .error "runtime error: invalid memory address or nil pointer dereference"
  | .float64Array a => a.Add values h
  | .other _ => .error "method of an implementation outside this development"

/-- Method call `v.Sub(values)` through the `Values` interface. -/
def Values.Sub (v values : Values) (h : Heap) : Except Panic (Values × Heap) :=
  match v with
  | .nil => .error "runtime error: invalid memory address or nil pointer dereference"
  | .float64Array a => a.Sub values h
  | .other _ => .error "method of an implementation outside this development"

/-- Method call `v.Mul(values)` through the `Values` interface. -/
def Values.Mul (v values : Values) (h : Heap) : Except Panic (Values × Heap) :=
  match v with
  | .nil => .error "runtime error: invalid memory address or nil pointer dereference"
  | .float64Array a => a.Mul values h
  | .other _ => .error "method of an implementation outside this development"

/-- Method call `v.Div(values)` through the `Values` interface. -/
def Values.Div (v values : Values) (h : Heap) : Except Panic (Values × Heap) :=
  match v with
  | .nil => .error "runtime error: invalid memory address or nil pointer dereference"
  | .float64Array a => a.Div values h
  | .other _ => .error "method of an implementation outside this development"

/-- The elements a `Values` holds, when it is a `Float64Array`. -/
def Values.toList (h : Heap) : Values → Option (List ℚ)
  | .float64Array a => some (a.toList h)
  | _ => none

/-- What a caller can observe of a call that returns a `Values`: the panic, or
the returned interface value together with its elements and the elements of a
slice of interest. -/
def observe (watch : float64.Float64Array) (r : Except Panic (Values × Heap)) :
    Except Panic (Values × Option (List ℚ) × List ℚ) :=
  match r with
  | .ok (v, h) => .ok (v, v.toList h, watch.toList h)
  | .error e => .error e

/-- The expression `a.Clone().Add(b).Sub(b)`. -/
def cloneAddSub (a b : Values) (h : Heap) : Except Panic (Values × Heap) :=
  match a.Clone h with
  | .error e => .error e
  | .ok (c, h1) =>
    match c.Add b h1 with
    | .error e => .error e
    | .ok (d, h2) => d.Sub b h2

end pso

namespace Example

open float64

/-- Storage holding `1, 2, 5, 7` in cells `0..3`. -/
def heap : Heap :=
  { cells := fun p => if p = 0 then 1 else if p = 1 then 2 else if p = 2 then 5
      else if p = 3 then 7 else 0,
    next := 4 }

/-- The slice `[]float64{1, 2}` over cells `0, 1`. -/
def va : Float64Array := { ptr := some 0, len := 2, cap := 2 }

/-- The slice `[]float64{5, 7}` over cells `2, 3`. -/
def vb : Float64Array := { ptr := some 2, len := 2, cap := 2 }

/-- The slice `va[0:1]`, that is `[]float64{1}`. -/
def vshort : Float64Array := { ptr := some 0, len := 1, cap := 2 }

end Example

namespace float64

/-- The loop `for i := range a2 { a2[i] = rnd.Float64() }` of `Random`: `n`
iterations remain, `i` is the current index, and `draws i` is the number the
`i`-th call of `rnd.Float64()` returns. -/
def randomLoop (a2 : Float64Array) (draws : Nat → ℚ) : Nat → Nat → Heap → Heap
  | 0, _, h => h
  | n + 1, i, h => randomLoop a2 draws n (i + 1) (a2.write h i (draws i))

/-- `Float64Array.Random`, with the numbers drawn from the shared source given
as `draws`. -/
def Float64Array.Random (arry : Float64Array) (draws : Nat → ℚ) (h : Heap) :
    pso.Values × Heap :=
  let r := make h arry.len arry.cap
  (.float64Array r.1, randomLoop r.1 draws r.1.len 0 r.2)

end float64

namespace pso

/-- Method call `v.Random()` through the `Values` interface. -/
def Values.Random (v : Values) (draws : Nat → ℚ) (h : Heap) : Except Panic (Values × Heap) :=
  match v with
  | .nil => .error "runtime error: invalid memory address or nil pointer dereference"
  | .float64Array a => .ok (a.Random draws h)
  | .other _ => .error "method of an implementation outside this development"

/-- Method call `r.In(values)` through the `Range` interface. -/
def Range.In (r : Range) (values : Values) (h : Heap) : Except Panic Bool :=
  match r with
  | .nil => .error "runtime error: invalid memory address or nil pointer dereference"
  | .float64 r => r.In values h
  | .other _ => .error "method of an implementation outside this development"

/-- Method call `f.Eval(values)` through the `TargetFunc` interface. -/
def TargetFunc.Eval (f : TargetFunc) (values : Values) (h : Heap) : Except Panic EvalValue :=
  match f with
  | .nil => .error "runtime error: invalid memory address or nil pointer dereference"
  | .float64 g => float64.TargetFunc.Eval g values h
  | .other _ => .error "method of an implementation outside this development"

/-- Method call `e.CompareTo(v)` through the `EvalValue` interface. -/
def EvalValue.CompareTo (e v : EvalValue) : Except Panic Int :=
  match e with
  | .nil => .error "runtime error: invalid memory address or nil pointer dereference"
  | .float64 x => float64.EvalValue.CompareTo x v
  | .other _ => .error "method of an implementation outside this development"

/-- Dereference of the `*Param` that `Particle.Start` receives, as the calls
`param.W()`, `param.C1()`, `param.C2()` do. -/
def derefParam : Option Param → Except Panic Param
  | some q => .ok q
  | none => .error "runtime error: invalid memory address or nil pointer dereference"

/-- Lines 150-153 of `Particle.Start`: `newPosition :=
p.position.Clone().Add(p.velocity)`, then the assignment guarded by
`p.valuesRange.In(newPosition)`. -/
def Particle.updatePosition (p : Particle) (h : Heap) : Except Panic (Particle × Heap) := do
  let (c, h1) ← p.position.Clone h
  let (newPosition, h2) ← c.Add p.velocity h1
  let inside ← p.valuesRange.In newPosition h2
  if inside then pure ({ p with position := newPosition }, h2) else pure (p, h2)

/-- Lines 156-165 of `Particle.Start`: the velocity update.  Calls are made in
Go's left-to-right order; `globalBest` is the value of that variable when line
163 reads it; `d1` and `d2` are the numbers drawn for `r1` and `r2`. -/
def Particle.updateVelocity (p : Particle) (param : Option Param) (globalBest : Values)
    (d1 d2 : Nat → ℚ) (h : Heap) : Except Panic Heap := do
  let (r1, h) ← p.velocity.Random d1 h
  let (r2, h) ← p.velocity.Random d2 h
  let q ← derefParam param
  let (_, h) ← p.velocity.Mul q.W h
  let (t1, h) ← r1.Mul q.C1 h
  let (bc, h) ← p.best.Clone h
  let (bd, h) ← bc.Sub p.position h
  let (_, h) ← t1.Mul bd h
  let (t2, h) ← r2.Mul q.C2 h
  let (gc, h) ← globalBest.Clone h
  let (gd, h) ← gc.Sub p.position h
  let (_, h) ← t2.Mul gd h
  let (s1, h) ← p.velocity.Add r1 h
  let (_, h) ← s1.Add r2 h
  pure h

/-- Lines 168-173 of `Particle.Start`: both evaluations, the comparison, and on
`< 0` the assignment `p.best = p.position` with the send `p.ch <- p.position`,
returned as the report. -/
def Particle.reportBest (p : Particle) (f : TargetFunc) (h : Heap) :
    Except Panic (Particle × Option Values) := do
  let ev ← f.Eval p.position h
  let p1 := { p with evalValue := ev }
  let bestValue ← f.Eval p1.best h
  let c ← p1.evalValue.CompareTo bestValue
  if c < 0 then pure ({ p1 with best := p1.position }, some p1.position) else pure (p1, none)

/-- One pass through the body of `for isRun` in `Particle.Start`: the particle
afterwards, the report sent on `p.ch` if any, and the storage. -/
def Particle.iteration (p : Particle) (f : TargetFunc) (param : Option Param)
    (globalBest : Values) (d1 d2 : Nat → ℚ) (h : Heap) :
    Except Panic (Particle × Option Values × Heap) := do
  let (p1, h1) ← p.updatePosition h
  let h2 ← p1.updateVelocity param globalBest d1 d2 h1
  let (p2, report) ← p1.reportBest f h2
  pure (p2, report, h2)

end pso

namespace Example

open float64

/-- Storage for one particle: position `{1, 2}` in cells `0, 1`, velocity
`{5, 7}` in `2, 3`, bounds `{-10, -10}` and `{10, 10}` in `4..7`, personal best
`{3, -2}` in `8, 9`, global best `{4, -1}` in `10, 11`, and `w`, `c1`, `c2`, each
`{1/2, 1/2}`, in `12..17`. -/
def swarmHeap : Heap :=
  { cells := fun p =>
      ([1, 2, 5, 7, -10, -10, 10, 10, 3, -2, 4, -1, 1/2, 1/2, 1/2, 1/2, 1/2, 1/2] :
        List ℚ).getD p 0,
    next := 18 }

/-- The slice of length 2 that starts at cell `base`. -/
def vec (base : Nat) : Float64Array := { ptr := some base, len := 2, cap := 2 }

/-- The bounds `[-10, 10] x [-10, 10]`. -/
def box : pso.Range := .float64 { min := vec 4, max := vec 6 }

/-- Particle at `{1, 2}` with velocity `{5, 7}` and personal best `{3, -2}`. -/
def particle : pso.Particle :=
  { position := .float64Array (vec 0), velocity := .float64Array (vec 2),
    valuesRange := box, evalValue := .nil, best := .float64Array (vec 8), ch := { id := 0 } }

/-- The same particle inside the bounds `[-10, 1/2] x [-10, 1/2]`, which neither
`{5, 7}` nor `{6, 9}` satisfies. -/
def tightParticle : pso.Particle :=
  { particle with valuesRange := .float64 { min := vec 4, max := vec 12 } }

/-- The coefficients `w = c1 = c2 = {1/2, 1/2}`. -/
def param : pso.Param :=
  { w := .float64Array (vec 12), c1 := .float64Array (vec 14), c2 := .float64Array (vec 16) }

/-- The objective `(x - 3)^2 + (y + 2)^2`, minimal at `{3, -2}`. -/
def bowl : Heap → Float64Array → ℚ :=
  fun h a => (a.read h 0 - 3) ^ 2 + (a.read h 1 + 2) ^ 2

/-- Every draw for `r1` is `1/2`. -/
def drawHalf : Nat → ℚ := fun _ => 1 / 2

/-- Every draw for `r2` is `1/4`. -/
def drawQuarter : Nat → ℚ := fun _ => 1 / 4

/-- What is visible after an iteration: the particle, the report, and the
elements of the position, velocity, personal best, received global best and
the three coefficient vectors. -/
def view (globalBest : pso.Values) (q : pso.Param)
    (r : Except Panic (pso.Particle × Option pso.Values × Heap)) :
    Except Panic (pso.Particle × Option pso.Values × List (Option (List ℚ))) :=
  match r with
  | .error e => .error e
  | .ok (p, report, h) =>
    .ok (p, report, [p.position.toList h, p.velocity.toList h, p.best.toList h,
      globalBest.toList h, q.w.toList h, q.c1.toList h, q.c2.toList h])

end Example

namespace pso

/-- What a call of `Particle.iteration` leaves in view of a given vector: its
elements in the storage after the call. -/
def elementsAfter (v : Values) (r : Except Panic (Particle × Option Values × Heap)) :
    Except Panic (Option (List ℚ)) :=
  match r with
  | .error e => .error e
  | .ok (_, _, h) => .ok (v.toList h)

/-- The position of the particle after a call of `Particle.iteration`, as the
elements it holds. -/
def positionAfter (r : Except Panic (Particle × Option Values × Heap)) :
    Except Panic (Option (List ℚ)) :=
  match r with
  | .error e => .error e
  | .ok (p, _, h) => .ok (p.position.toList h)

/-- The velocity of the particle after a call of `Particle.iteration`, as the
elements it holds. -/
def velocityAfter (r : Except Panic (Particle × Option Values × Heap)) :
    Except Panic (Option (List ℚ)) :=
  match r with
  | .error e => .error e
  | .ok (p, _, h) => .ok (p.velocity.toList h)

/-- The personal best after a call of `Particle.iteration`: the vector, its
elements, its fitness under `f`, and the report sent. -/
def bestAfter (f : TargetFunc) (r : Except Panic (Particle × Option Values × Heap)) :
    Except Panic (Values × Option (List ℚ) × EvalValue × Option Values) :=
  match r with
  | .error e => .error e
  | .ok (p, report, h) =>
    match f.Eval p.best h with
    | .error e => .error e
    | .ok v => .ok (p.best, p.best.toList h, v, report)

/-- A channel operation that the coordination loop issues. -/
inductive Action
  | send (c : Chan) (v : Values)
  | close (c : Chan)
deriving DecidableEq, Repr

/-- The elements that `for _, p := range s.particles` visits. -/
def rangeParticles : Option (List (Option Particle)) → List (Option Particle)
  | none => []
  | some ps => ps

/-- Lines 163-170 of `Solver.Start`: `p.Channel() <- s.best` for every non-nil
particle, in slice order. -/
def broadcast : List (Option Particle) → Values → List Action
  | [], _ => []
  | none :: ps, v => broadcast ps v
  | some p :: ps, v => .send p.Channel v :: broadcast ps v

/-- Lines 174-180 of `Solver.Start`: `close(p.Channel())` for every non-nil
particle, in slice order. -/
def closeAll : List (Option Particle) → List Action
  | [] => []
  | none :: ps => closeAll ps
  | some p :: ps => .close p.Channel :: closeAll ps

/-- One arrival at the coordination loop: the report received from `bestCh`,
the storage in which line 159 evaluates it, and the value of `done` that line
173 reads after the report has been handled. -/
structure Event where
  report : Values
  heap : Heap
  done : Bool

/-- What handling one report did: the report, `bestValue` before and after
lines 160-171, whether the branch of line 160 was taken, `s.best` afterwards,
and the channel operations issued (the sends of the broadcast, followed by the
closes when `done` was read as true). -/
structure Step where
  report : Values
  before : EvalValue
  after : EvalValue
  adopted : Bool
  best : Values
  actions : List Action
deriving DecidableEq, Repr

/-- The condition of line 160, `bestValue == nil ||
localBestValue.CompareTo(bestValue) < 0`, with its short circuit. -/
def adopts (bestValue localBestValue : EvalValue) : Except Panic Bool :=
  if bestValue = .nil then .ok true
  else
    match localBestValue.CompareTo bestValue with
    | .error e => .error e
    | .ok c => .ok (decide (c < 0))

/-- Lines 159-171 of `Solver.Start` for one received `localBest`: the solver
and `bestValue` afterwards, whether the report was adopted, and the sends. -/
def Solver.handle (s : Solver) (bestValue : EvalValue) (localBest : Values) (h : Heap) :
    Except Panic (Solver × EvalValue × Bool × List Action) :=
  match s.TargetFunc.Eval localBest h with
  | .error e => .error e
  | .ok localBestValue =>
    match adopts bestValue localBestValue with
    | .error e => .error e
    | .ok true =>
      .ok ({ s with best := localBest }, localBestValue, true,
        broadcast (rangeParticles s.particles) localBest)
    | .ok false => .ok (s, bestValue, false, [])

/-- The loop `for { ... }` of `Solver.Start` (lines 157-183) run on the reports
that arrive: the solver afterwards, one `Step` per report handled, and whether
the loop was left through `break` (otherwise it is waiting at `<-bestCh`).
Channel operations are recorded, not executed. -/
def Solver.coordinate (s : Solver) (bestValue : EvalValue) :
    List Event → Except Panic (Solver × List Step × Bool)
  | [] => .ok (s, [], false)
  | e :: rest =>
    match s.handle bestValue e.report e.heap with
    | .error err => .error err
    | .ok (s1, bv1, adopted, sends) =>
      if e.done then
        .ok (s1, [{ report := e.report, before := bestValue, after := bv1,
                    adopted := adopted, best := s1.best,
                    actions := sends ++ closeAll (rangeParticles s1.particles) }], true)
      else
        match s1.coordinate bv1 rest with
        | .error err => .error err
        | .ok (s2, steps, returned) =>
          .ok (s2, { report := e.report, before := bestValue, after := bv1,
                     adopted := adopted, best := s1.best, actions := sends } :: steps,
            returned)

/-- The coordination part of `Solver.Start`: `var bestValue EvalValue` starts as
nil, then the loop. -/
def Solver.Start (s : Solver) (events : List Event) :
    Except Panic (Solver × List Step × Bool) :=
  s.coordinate .nil events

/-- The arrival of a `Float64Array` report. -/
def Event.float64 (r : float64.Float64Array × Heap × Bool) : Event :=
  { report := .float64Array r.1, heap := r.2.1, done := r.2.2 }

/-- The arrival of a `Float64Array` report while no stop signal has been seen. -/
def Event.arrival (r : float64.Float64Array × Heap) : Event :=
  { report := .float64Array r.1, heap := r.2, done := false }

/-- The fitness that line 159 computes for a `Float64Array` report under the
objective `g`. -/
def fitness (g : Heap → float64.Float64Array → ℚ) (r : float64.Float64Array × Heap) : ℚ :=
  g r.2 r.1

/-- Whether an action is a `close`. -/
def Action.isClose : Action → Bool
  | .close _ => true
  | .send _ _ => false

/-- A blocking operation on a channel of `Values`, by the channel it names. -/
inductive ChanOp
  | recv (c : Chan)
  | send (c : Chan)
deriving DecidableEq, Repr

/-- The operations on channels of `Values` in `Particle.Start(f, param, ch)`:
the receive of line 140 and the receive of line 143, both from the argument
`ch`, and the send of line 172, on the field `p.ch`. -/
def Particle.StartOps (p : Particle) (ch : Chan) : List ChanOp :=
  [.recv ch, .recv ch, .send p.ch]

/-- The operations of the workers that line 145 of `Solver.Start` spawns: every
non-nil particle runs `p.Start(s.f, s.param, bestCh)`. -/
def workerOps (bestCh : Chan) : List (Option Particle) → List ChanOp
  | [] => []
  | none :: ps => workerOps bestCh ps
  | some p :: ps => p.StartOps bestCh ++ workerOps bestCh ps

/-- The operations of the coordination loop itself: the receive of line 158
from `bestCh` and the sends of line 169 on `p.Channel()`. -/
def coordinatorOps (bestCh : Chan) : List (Option Particle) → List ChanOp
  | [] => [.recv bestCh]
  | none :: ps => coordinatorOps bestCh ps
  | some p :: ps => .send p.Channel :: coordinatorOps bestCh ps

/-- Every blocking operation on a channel of `Values` that a run of
`Solver.Start` can issue, where `bestCh` is the channel made at line 134. -/
def Solver.StartOps (s : Solver) (bestCh : Chan) : List ChanOp :=
  workerOps bestCh (rangeParticles s.particles) ++
    coordinatorOps bestCh (rangeParticles s.particles)

/-- A value can pass over the unbuffered channel `c` only when one operation
sends on it and another receives from it. -/
def canPass (ops : List ChanOp) (c : Chan) : Bool :=
  decide (ChanOp.send c ∈ ops) && decide (ChanOp.recv c ∈ ops)

/-- The channel operations of one pass of the loop body executed in order, where
`ops` are the blocking operations of the other goroutines.  Every channel here
comes from `make(chan Values)` and has no buffer, so a send completes only if
one of the others receives from its channel; a `close` always completes.  The
result is the operations that complete and, when a send cannot, its channel:
the loop stays at that send. -/
def deliver (ops : List ChanOp) : List Action → List Action × Option Chan
  | [] => ([], none)
  | .send c v :: rest =>
    if ChanOp.recv c ∈ ops then
      (.send c v :: (deliver ops rest).1, (deliver ops rest).2)
    else ([], some c)
  | .close c :: rest => (.close c :: (deliver ops rest).1, (deliver ops rest).2)

/-- The part of a recorded run that takes place when its channel operations are
executed: the steps up to the first send that cannot complete, the last of them
with the operations it completed, and the channel of that send. -/
def takesPlace (ops : List ChanOp) : List Step → List Step × Option Chan
  | [] => ([], none)
  | st :: rest =>
    match deliver ops st.actions with
    | (acts, some c) => ([{ st with actions := acts }], some c)
    | (_, none) => (st :: (takesPlace ops rest).1, (takesPlace ops rest).2)

/-- The coordination loop on the reports that arrive, its channel operations
executed against the workers that line 145 spawned: the steps that take place,
the channel of the send at which the loop stays, if any, and whether `Start`
returns. -/
def Solver.StartExecuted (s : Solver) (bestCh : Chan) (events : List Event) :
    Except Panic (List Step × Option Chan × Bool) :=
  match s.Start events with
  | .error e => .error e
  | .ok (_, steps, returned) =>
    match takesPlace (workerOps bestCh (rangeParticles s.particles)) steps with
    | (ran, some c) => .ok (ran, some c, false)
    | (ran, none) => .ok (ran, none, returned)

end pso

namespace Example

/-- A solver for the objective above holding the one particle above. -/
def solver : pso.Solver :=
  { f := .float64 bowl, particles := some [some particle], param := some param, best := .nil }

end Example

namespace float64

/-- The loop of `NewRangeWithInf` (lines 182-185): `n` iterations remain, `i` is
the current index; `math.Inf(-1)` is the least and `math.Inf(1)` the greatest
number. -/
def infLoop {α : Type} [LinearOrder α] [BoundedOrder α] (min max : Float64Array) :
    Nat → Nat → HeapOf α → HeapOf α
  | 0, _, h => h
  | n + 1, i, h => infLoop min max n (i + 1) (max.write (min.write h i ⊥) i ⊤)

/-- `NewRangeWithInf`: the two `make([]float64, length)`, the loop that fills
them, then `NewRange`. -/
def NewRangeWithInf {α : Type} [LinearOrder α] [BoundedOrder α] [Zero α] (length : Nat)
    (h : HeapOf α) : Except Panic (Range × HeapOf α) :=
  let r1 := make h length length
  let r2 := make r1.2 length length
  let h3 := infLoop r1.1 r2.1 length 0 r2.2
  match NewRange r1.1 r2.1 with
  | .error e => .error e
  | .ok r => .ok (r, h3)

end float64

namespace Example

/-- Storage read with NaN, holding `0`, `1` and NaN in cells `0, 1, 2`. -/
def nanHeap : HeapOf NaNFloat :=
  { cells := fun p => if p = 0 then .num 0 else if p = 1 then .num 1 else .nan,
    next := 3 }

/-- The slice of length 1 over the cell `base`. -/
def cell (base : Nat) : float64.Float64Array := { ptr := some base, len := 1, cap := 1 }

/-- Storage read over the extended rationals, holding `+∞, -7` in cells `0, 1`. -/
def extHeap : HeapOf ExtFloat :=
  { cells := fun p => if p = 0 then ⊤ else if p = 1 then ((-7 : ℚ) : WithTop ℚ) else 0,
    next := 2 }

end Example

deriving instance DecidableEq for Except

namespace float64

/-! ## The element-wise loop -/

/-- The loop finishes without a panic when the second operand is long enough. -/
theorem assignLoop_total (f : ℚ → ℚ → ℚ) (a a2 : Float64Array) :
    ∀ (n i : Nat) (h : Heap), i + n ≤ a2.len → ∃ h', assignLoop f a a2 n i h = .ok h' := by
  intro n
  induction n with
  | zero => intro i h _; exact ⟨h, rfl⟩
  | succ n ih =>
    intro i h hle
    have hi : i < a2.len := by omega
    simp only [assignLoop, hi, if_true]
    exact ih (i + 1) _ (by omega)

/-- The loop panics when the second operand ends before the receiver does. -/
theorem assignLoop_short (f : ℚ → ℚ → ℚ) (a a2 : Float64Array) :
    ∀ (n i : Nat) (h : Heap), i ≤ a2.len → a2.len < i + n →
      assignLoop f a a2 n i h = .error "runtime error: index out of range" := by
  intro n
  induction n with
  | zero => intro i h h1 h2; omega
  | succ n ih =>
    intro i h h1 h2
    by_cases hi : i < a2.len
    · simp only [assignLoop, hi, if_true]
      exact ih (i + 1) _ (by omega) (by omega)
    · simp only [assignLoop, hi, if_false]

/-- With operands that share no cell, the loop computes `f` element by element
from the values held before the loop, and touches no other cell. -/
theorem assignLoop_spec (f : ℚ → ℚ → ℚ) (a a2 : Float64Array)
    (hd : ∀ j k, j < a.len → k < a.len → a.addr j ≠ a2.addr k) :
    ∀ (n i : Nat) (h : Heap), i + n ≤ a.len → a.len ≤ a2.len →
      ∃ h', assignLoop f a a2 n i h = .ok h' ∧
        (∀ j, i ≤ j → j < i + n → a.read h' j = f (a.read h j) (a2.read h j)) ∧
        (∀ p, (∀ j, i ≤ j → j < i + n → p ≠ a.addr j) → h'.cells p = h.cells p) := by
  intro n
  induction n with
  | zero =>
    intro i h _ _
    exact ⟨h, rfl, fun j h1 h2 => by omega, fun p _ => rfl⟩
  | succ n ih =>
    intro i h hle hlen
    have hi : i < a2.len := by omega
    obtain ⟨h', hrun, hval, hframe⟩ :=
      ih (i + 1) (a.write h i (f (a.read h i) (a2.read h i))) (by omega) hlen
    refine ⟨h', ?_, ?_, ?_⟩
    · simp only [assignLoop, hi, if_true]
      exact hrun
    · intro j hj1 hj2
      by_cases hji : j = i
      · subst hji
        have := hframe (a.addr j) (fun k hk1 _ => by
          simp only [Float64Array.addr]; omega)
        simp only [Float64Array.read, this, Float64Array.write, Function.update_same]
      · have h3 := hval j (by omega) (by omega)
        have h4 : a.addr j ≠ a.addr i := by simp only [Float64Array.addr]; omega
        have h5 : a2.addr j ≠ a.addr i := fun e => hd i j (by omega) (by omega) e.symm
        simp only [Float64Array.read, Float64Array.write, Function.update_noteq h4,
          Function.update_noteq h5] at h3
        simpa only [Float64Array.read] using h3
    · intro p hp
      have h3 := hframe p (fun j hj1 hj2 => hp j (by omega) (by omega))
      have h4 : p ≠ a.addr i := hp i (by omega) (by omega)
      simp only [h3, Float64Array.write, Function.update_noteq h4]

/-- Disjoint slices of one length have no common address. -/
theorem Disjoint.addr_ne {a b : Float64Array} (hd : a.Disjoint b) (hlen : a.len = b.len) :
    ∀ j k, j < a.len → k < a.len → a.addr j ≠ b.addr k := by
  intro j k hj hk
  simp only [Float64Array.Disjoint, Float64Array.addr] at hd ⊢
  omega

/-! ## The bounds loop -/

/-- The loop of `Range.In` returns, and returns `true` exactly when every
remaining element is inside its closed interval. -/
theorem inLoop_spec {α : Type} [LinearOrder α] (h : HeapOf α) (a min max : Float64Array) :
    ∀ (n i : Nat), i + n ≤ min.len → i + n ≤ max.len →
      ∃ b, inLoop h a min max n i = .ok b ∧
        (b = true ↔ ∀ j, i ≤ j → j < i + n →
          min.read h j ≤ a.read h j ∧ a.read h j ≤ max.read h j) := by
  intro n
  induction n with
  | zero =>
    intro i _ _
    exact ⟨true, rfl, by simp; intro j h1 h2; omega⟩
  | succ n ih =>
    intro i h1 h2
    have hi1 : i < min.len := by omega
    have hi2 : i < max.len := by omega
    simp only [inLoop, hi1, hi2, if_true]
    by_cases hlo : a.read h i < min.read h i
    · refine ⟨false, by simp only [hlo, if_true], ?_⟩
      constructor
      · intro hf; cases hf
      · intro hall
        exact absurd (hall i (le_refl i) (by omega)).1 (not_le.mpr hlo)
    · by_cases hhi : a.read h i > max.read h i
      · refine ⟨false, by simp only [hlo, hhi, if_true, if_false], ?_⟩
        constructor
        · intro hf; cases hf
        · intro hall
          exact absurd (hall i (le_refl i) (by omega)).2 (not_le.mpr hhi)
      · obtain ⟨b, hb, hiff⟩ := ih (i + 1) (by omega) (by omega)
        refine ⟨b, by simp only [hlo, hhi, if_false]; exact hb, ?_⟩
        rw [hiff]
        constructor
        · intro hall j hj1 hj2
          by_cases hji : j = i
          · subst hji
            exact ⟨not_lt.mp hlo, not_lt.mp hhi⟩
          · exact hall j (by omega) (by omega)
        · intro hall j hj1 hj2
          exact hall j (by omega) (by omega)

/-! ## Clone -/

/-- What `Clone` does on every input: the returned slice has the receiver's
length and holds zeros, and the receiver holds zeros afterwards. -/
theorem Clone_zero (a : Float64Array) (h : Heap) (hcap : a.len ≤ a.cap) :
    ∃ c, (a.Clone h).1 = .float64Array c ∧ c.len = a.len ∧
      (∀ i, i < a.len → c.read (a.Clone h).2 i = 0) ∧
      (∀ i, i < a.len → a.read (a.Clone h).2 i = 0) := by
  refine ⟨(make h a.len a.cap).1, rfl, rfl, ?_, ?_⟩
  · intro i hi
    simp only [Float64Array.Clone, copy, make, Float64Array.read, Float64Array.addr,
      Option.getD_some, Nat.min_self]
    split_ifs <;> first | rfl | omega
  · intro i hi
    simp only [Float64Array.Clone, copy, make, Float64Array.read, Float64Array.addr,
      Option.getD_some, Nat.min_self]
    split_ifs <;> first | rfl | omega

end float64

/-! ## Claims about the `float64` package -/

namespace float64

open Example

/-- C1 (as the code behaves): on `[]float64{1, 2}` the vector that `Clone`
returns has length 2 but holds `0, 0`, not the receiver's `1, 2`. -/
theorem Clone_result_is_zeroed :
    va.toList heap = [1, 2] ∧
      pso.Values.toList (va.Clone heap).2 (va.Clone heap).1 = some [0, 0] := by
  decide!

/-- C2 (as the code behaves): after `Clone` on `[]float64{1, 2}` the receiver
itself holds `0, 0`. -/
theorem Clone_zeroes_receiver :
    va.toList heap = [1, 2] ∧ va.toList (va.Clone heap).2 = [0, 0] := by
  decide!

/-- C3 (as the code behaves): with `a = {1, 2}` and `b = {5, 7}`,
`a.Clone().Add(b).Sub(b)` returns a vector holding `0, 0`, not `1, 2`. -/
theorem cloneAddSub_is_zeroed :
    va.toList heap = [1, 2] ∧ vb.toList heap = [5, 7] ∧
      pso.observe vb (pso.cloneAddSub (.float64Array va) (.float64Array vb) heap) =
        .ok (.float64Array { ptr := some 4, len := 2, cap := 2 }, some [0, 0], [5, 7]) := by
  decide!

/-- C4 as stated fails when the operand is the receiver: `a.Add(a)` on
`{1, 2}` returns `a` holding `2, 4`, so the operand, being `a`, has changed. -/
theorem Add_changes_aliased_operand :
    va.toList heap = [1, 2] ∧
      pso.observe va (Op.run .add va (.float64Array va) heap) =
        .ok (.float64Array va, some [2, 4], [2, 4]) := by
  decide!

/-- C4 (amended): for `a` and `b` of equal length that share no cell, and each
of `Add`, `Sub`, `Mul`, `Div` (for `Div`, every `b[i]` non-zero), `a.op(b)`
returns the receiver `a`; afterwards `a[i]` is the old `a[i] op b[i]` for every
index and every `b[i]` is unchanged. -/
theorem op_elementwise (op : Op) (h : Heap) (a b : Float64Array)
    (hlen : a.len = b.len) (hdisj : a.Disjoint b)
    (hdiv : op = .div → ∀ i, i < b.len → b.read h i ≠ 0) :
    ∃ h', op.run a (.float64Array b) h = .ok (.float64Array a, h') ∧
      (∀ i, i < a.len → a.read h' i = op.apply (a.read h i) (b.read h i)) ∧
      (∀ i, i < b.len → b.read h' i = b.read h i) := by
  have hne := Disjoint.addr_ne hdisj hlen
  obtain ⟨h', hrun, hval, hframe⟩ :=
    assignLoop_spec (op.apply) a b hne a.len 0 h (by omega) (by omega)
  refine ⟨h', ?_, ?_, ?_⟩
  · cases op <;>
      simp only [Op.run, Op.apply, Float64Array.Add, Float64Array.Sub, Float64Array.Mul,
        Float64Array.Div] at hrun ⊢ <;> rw [hrun]
  · intro i hi
    exact hval i (Nat.zero_le i) (by omega)
  · intro i hi
    exact hframe (b.addr i) (fun j _ hj => (hne j i (by omega) (by omega)).symm)

/-- C4 (amended) at `a = {1, 2}`, `b = {5, 7}` and `Div`. -/
theorem op_elementwise_witness :
    va.len = vb.len ∧ va.Disjoint vb ∧
      ∃ h', Op.run .div va (.float64Array vb) heap = .ok (.float64Array va, h') ∧
        (∀ i, i < va.len → va.read h' i = Op.apply .div (va.read heap i) (vb.read heap i)) ∧
        (∀ i, i < vb.len → vb.read h' i = vb.read heap i) :=
  have hd : va.Disjoint vb := by
    simp [Float64Array.Disjoint, Float64Array.addr, va, vb]
  ⟨rfl, hd, op_elementwise .div heap va vb rfl hd (fun _ i hi => by
    have hi2 : i < 2 := hi
    interval_cases i <;> simp [Float64Array.read, Float64Array.addr, vb, heap])⟩

/-- C5 as stated fails when `b` is the longer operand: `{1}.Add({5, 7})`
returns the receiver, now holding `6`. -/
theorem Add_longer_operand_returns :
    vshort.len ≠ vb.len ∧
      pso.observe vb (Op.run .add vshort (.float64Array vb) heap) =
        .ok (.float64Array vshort, some [6], [5, 7]) := by
  decide!

/-- C5 (amended): each of `Add`, `Sub`, `Mul`, `Div` fails, with an
index-out-of-range panic, when `b` is shorter than `a`; when `b` is longer than
`a` the call does not fail and returns the receiver. -/
theorem op_length_mismatch (op : Op) (h : Heap) (a b : Float64Array) :
    (b.len < a.len →
      op.run a (.float64Array b) h = .error "runtime error: index out of range") ∧
    (a.len < b.len → ∃ h', op.run a (.float64Array b) h = .ok (.float64Array a, h')) := by
  constructor
  · intro hlt
    have hrun := fun f => assignLoop_short f a b a.len 0 h (Nat.zero_le _) (by omega)
    cases op <;>
      simp only [Op.run, Float64Array.Add, Float64Array.Sub, Float64Array.Mul,
        Float64Array.Div, hrun]
  · intro hlt
    cases op
    · obtain ⟨h', hrun⟩ := assignLoop_total (fun x y => x + y) a b a.len 0 h (by omega)
      exact ⟨h', by simp only [Op.run, Float64Array.Add, hrun]⟩
    · obtain ⟨h', hrun⟩ := assignLoop_total (fun x y => x - y) a b a.len 0 h (by omega)
      exact ⟨h', by simp only [Op.run, Float64Array.Sub, hrun]⟩
    · obtain ⟨h', hrun⟩ := assignLoop_total (fun x y => x * y) a b a.len 0 h (by omega)
      exact ⟨h', by simp only [Op.run, Float64Array.Mul, hrun]⟩
    · obtain ⟨h', hrun⟩ := assignLoop_total (fun x y => x / y) a b a.len 0 h (by omega)
      exact ⟨h', by simp only [Op.run, Float64Array.Div, hrun]⟩

/-- C5 (amended) at `{5, 7}.Sub({1})`, which fails, and `{1}.Sub({5, 7})`,
which returns. -/
theorem op_length_mismatch_witness :
    (vshort.len < vb.len ∧
      Op.run .sub vb (.float64Array vshort) heap =
        .error "runtime error: index out of range") ∧
    (vshort.len < vb.len ∧
      ∃ h', Op.run .sub vshort (.float64Array vb) heap = .ok (.float64Array vshort, h')) :=
  ⟨⟨by decide, (op_length_mismatch .sub heap vb vshort).1 (by decide)⟩,
   ⟨by decide, (op_length_mismatch .sub heap vshort vb).2 (by decide)⟩⟩

/-- On cells read as exact rationals, hence without NaN: for a range built by
`NewRange` from `min` and `max` and a vector `v` of their length, `In` returns,
and returns `true` exactly when `min[i] <= v[i] <= max[i]` at every index; for
`v` of any other length `In` fails. -/
theorem In_iff_within (h : Heap) (min max v : Float64Array) (r : Range)
    (hr : NewRange min max = .ok r) :
    (v.len = min.len →
      ∃ b, r.In (.float64Array v) h = .ok b ∧
        (b = true ↔ ∀ i, i < v.len →
          min.read h i ≤ v.read h i ∧ v.read h i ≤ max.read h i)) ∧
    (v.len ≠ min.len →
      r.In (.float64Array v) h =
        .error "length of values have to be same with minx and max.") := by
  unfold NewRange at hr
  split_ifs at hr with h1 h2 h3
  simp only [Except.ok.injEq] at hr
  subst hr
  simp only [ne_eq, not_not] at h3
  constructor
  · intro hv
    obtain ⟨b, hb, hiff⟩ := inLoop_spec h v min max v.len 0 (by omega) (by omega)
    refine ⟨b, ?_, ?_⟩
    · simp only [Range.In, hv, ne_eq, not_true_eq_false, if_false]
      rw [← hv]; exact hb
    · rw [hiff]
      constructor
      · intro hall i hi
        exact hall i (Nat.zero_le i) (by omega)
      · intro hall j _ hj
        exact hall j (by omega)
  · intro hv
    simp only [Range.In, hv, ne_eq, not_false_eq_true, if_true]

/-- C6 (as the code behaves): for the range that `NewRange` builds from `{0}` and
`{1}`, `In` on the vector `{NaN}` returns `true`, although neither
`min[0] <= v[0]` nor `v[0] <= max[0]` holds: both comparisons of line 206 are
false on NaN. -/
theorem In_accepts_NaN :
    (cell 0).read nanHeap 0 = .num 0 ∧ (cell 1).read nanHeap 0 = .num 1 ∧
    (cell 2).read nanHeap 0 = .nan ∧
    NewRange (cell 0) (cell 1) = .ok { min := cell 0, max := cell 1 } ∧
    Range.In { min := cell 0, max := cell 1 } (.float64Array (cell 2)) nanHeap = .ok true ∧
    ¬ ((cell 0).read nanHeap 0 ≤ (cell 2).read nanHeap 0) ∧
    ¬ ((cell 2).read nanHeap 0 ≤ (cell 1).read nanHeap 0) := by
  decide!

/-- C7: on two `float64` evaluation values `CompareTo` returns `-1` when
`e < e2`, `0` when `e == e2` and `1` when `e > e2`, hence one of these three. -/
theorem CompareTo_sign (e e2 : EvalValue) :
    EvalValue.CompareTo e (.float64 e2) =
        .ok (if e < e2 then -1 else if e = e2 then 0 else 1) ∧
      ∃ r, EvalValue.CompareTo e (.float64 e2) = .ok r ∧ (r = -1 ∨ r = 0 ∨ r = 1) := by
  unfold EvalValue.CompareTo
  rcases lt_trichotomy e e2 with hlt | heq | hgt
  · have hng : ¬ e > e2 := not_lt.mpr (le_of_lt hlt)
    simp only [hng, hlt, if_true, if_false, true_and]
    exact ⟨-1, rfl, Or.inl rfl⟩
  · subst heq
    simp only [gt_iff_lt, lt_irrefl, if_false, if_true, true_and]
    exact ⟨0, rfl, Or.inr (Or.inl rfl)⟩
  · have hnl : ¬ e < e2 := not_lt.mpr (le_of_lt hgt)
    have hne : ¬ e = e2 := ne_of_gt hgt
    simp only [hgt, hnl, hne, if_true, if_false, true_and]
    exact ⟨1, rfl, Or.inr (Or.inr rfl)⟩

end float64

/-! ## Claims about the constructors of package `pso` -/

namespace pso

/-- C8: `NewParam(w, c1, c2)` fails exactly when one of the three is the nil
interface or the three do not all have one concrete type; when it succeeds the
returned `Param` gives back `w`, `c1` and `c2` through `W()`, `C1()`, `C2()`. -/
theorem NewParam_fails_iff (w c1 c2 : Values) :
    ((∃ e, NewParam w c1 c2 = .error e) ↔
      (w = .nil ∨ c1 = .nil ∨ c2 = .nil ∨
        ¬ (reflect.TypeOf w = reflect.TypeOf c1 ∧ reflect.TypeOf w = reflect.TypeOf c2))) ∧
    (∀ p, NewParam w c1 c2 = .ok p → p.W = w ∧ p.C1 = c1 ∧ p.C2 = c2) := by
  unfold NewParam
  by_cases hw : w = .nil
  · rw [if_pos hw]
    exact ⟨⟨fun _ => Or.inl hw, fun _ => ⟨_, rfl⟩⟩, fun p hp => by cases hp⟩
  · rw [if_neg hw]
    by_cases h1 : c1 = .nil
    · rw [if_pos h1]
      exact ⟨⟨fun _ => Or.inr (Or.inl h1), fun _ => ⟨_, rfl⟩⟩, fun p hp => by cases hp⟩
    · rw [if_neg h1]
      by_cases h2 : c2 = .nil
      · rw [if_pos h2]
        exact ⟨⟨fun _ => Or.inr (Or.inr (Or.inl h2)), fun _ => ⟨_, rfl⟩⟩,
          fun p hp => by cases hp⟩
      · rw [if_neg h2]
        by_cases ht : reflect.TypeOf w ≠ reflect.TypeOf c1 ∨
            reflect.TypeOf w ≠ reflect.TypeOf c2
        · rw [if_pos ht]
          refine ⟨⟨fun _ => Or.inr (Or.inr (Or.inr ?_)), fun _ => ⟨_, rfl⟩⟩,
            fun p hp => by cases hp⟩
          rintro ⟨e1, e2⟩
          rcases ht with ht | ht
          · exact ht e1
          · exact ht e2
        · rw [if_neg ht]
          refine ⟨⟨(fun ⟨e, he⟩ => by cases he), fun hn => ?_⟩, fun p hp => ?_⟩
          · exfalso
            rcases hn with hn | hn | hn | hn
            · exact hw hn
            · exact h1 hn
            · exact h2 hn
            · apply hn
              constructor
              · by_contra hc; exact ht (Or.inl hc)
              · by_contra hc; exact ht (Or.inr hc)
          · cases hp
            exact ⟨rfl, rfl, rfl⟩

/-- C8 at a failing call (nil `w`) and at a succeeding one (three
`Float64Array` values). -/
theorem NewParam_fails_iff_witness :
    (∃ e, NewParam .nil (.float64Array Example.va) (.float64Array Example.vb) = .error e) ∧
    (∃ p, NewParam (.float64Array Example.va) (.float64Array Example.vb)
        (.float64Array Example.vshort) = .ok p ∧
      p.W = .float64Array Example.va ∧ p.C1 = .float64Array Example.vb ∧
      p.C2 = .float64Array Example.vshort) :=
  ⟨(NewParam_fails_iff .nil (.float64Array Example.va) (.float64Array Example.vb)).1.2
      (Or.inl rfl),
   ⟨_, rfl, (NewParam_fails_iff (.float64Array Example.va) (.float64Array Example.vb)
      (.float64Array Example.vshort)).2 _ rfl⟩⟩

/-- C9: `NewSolver(f, particles, param)` fails exactly when the particle slice
is nil or has length zero; when it succeeds the solver holds `f`, `particles`
and `param` as given and `Best()` is the nil interface. -/
theorem NewSolver_fails_iff (f : TargetFunc) (particles : Option (List (Option Particle)))
    (param : Option Param) :
    ((∃ e, NewSolver f particles param = .error e) ↔
      (particles = none ∨ lenParticles particles = 0)) ∧
    (∀ s, NewSolver f particles param = .ok s →
      s.TargetFunc = f ∧ s.Particles = particles ∧ s.Param = param ∧ s.Best = .nil) := by
  unfold NewSolver
  by_cases hn : particles = none
  · rw [if_pos hn]
    exact ⟨⟨fun _ => Or.inl hn, fun _ => ⟨_, rfl⟩⟩, fun s hs => by cases hs⟩
  · rw [if_neg hn]
    by_cases hl : lenParticles particles ≤ 0
    · rw [if_pos hl]
      exact ⟨⟨fun _ => Or.inr (by omega), fun _ => ⟨_, rfl⟩⟩, fun s hs => by cases hs⟩
    · rw [if_neg hl]
      refine ⟨⟨(fun ⟨e, he⟩ => by cases he), fun h0 => ?_⟩, fun s hs => ?_⟩
      · exfalso
        rcases h0 with h0 | h0
        · exact hn h0
        · omega
      · cases hs
        exact ⟨rfl, rfl, rfl, rfl⟩

/-- C9 at a failing call (nil slice) and at a succeeding one (a slice holding
one nil particle pointer, nil target function and nil `Param`). -/
theorem NewSolver_fails_iff_witness :
    (∃ e, NewSolver .nil none none = .error e) ∧
    (∃ s, NewSolver .nil (some [none]) none = .ok s ∧
      s.Particles = some [none] ∧ s.Param = none ∧ s.Best = .nil) :=
  ⟨(NewSolver_fails_iff .nil none none).1.2 (Or.inl rfl),
   ⟨_, rfl, ((NewSolver_fails_iff .nil (some [none]) none).2 _ rfl).2⟩⟩

/-- C10: `NewParticle(position, velocity, valuesRange)` fails whenever
`position` is nil, `velocity` is nil, the two have different concrete types, or
`valuesRange.Type()` does not yield the concrete type of `position` (a nil
`valuesRange` has no `Type()` to yield it); otherwise it returns a particle whose
`Position()`, `Velocity()` and `Range()` are the arguments and whose personal
best and evaluated value are nil. -/
theorem NewParticle_fails_or_builds (position velocity : Values) (valuesRange : Range)
    (fresh : Chan) :
    ((position = .nil ∨ velocity = .nil ∨
        reflect.TypeOf position ≠ reflect.TypeOf velocity ∨
        valuesRange.Type ≠ .ok (reflect.TypeOf position)) →
      ∃ e, NewParticle position velocity valuesRange fresh = .error e) ∧
    (¬ (position = .nil ∨ velocity = .nil ∨
        reflect.TypeOf position ≠ reflect.TypeOf velocity ∨
        valuesRange.Type ≠ .ok (reflect.TypeOf position)) →
      ∃ p, NewParticle position velocity valuesRange fresh = .ok p ∧
        p.Position = position ∧ p.Velocity = velocity ∧ p.Range = valuesRange ∧
        p.Best = .nil ∧ p.EvalValue = .nil) := by
  unfold NewParticle
  by_cases hp : position = .nil
  · rw [if_pos hp]
    exact ⟨fun _ => ⟨_, rfl⟩, fun hn => absurd (Or.inl hp) hn⟩
  · rw [if_neg hp]
    by_cases hv : velocity = .nil
    · rw [if_pos hv]
      exact ⟨fun _ => ⟨_, rfl⟩, fun hn => absurd (Or.inr (Or.inl hv)) hn⟩
    · rw [if_neg hv]
      by_cases ht : reflect.TypeOf position ≠ reflect.TypeOf velocity
      · rw [if_pos ht]
        exact ⟨fun _ => ⟨_, rfl⟩, fun hn => absurd (Or.inr (Or.inr (Or.inl ht))) hn⟩
      · rw [if_neg ht]
        cases hr : valuesRange.Type with
        | error e =>
          refine ⟨fun _ => ⟨e, rfl⟩, fun hn => ?_⟩
          exact absurd (Or.inr (Or.inr (Or.inr (fun he => by cases he)))) hn
        | ok t =>
          by_cases hty : reflect.TypeOf position ≠ t
          · refine ⟨fun _ => ⟨_, if_pos hty⟩, fun hn => ?_⟩
            refine absurd (Or.inr (Or.inr (Or.inr (fun he => ?_)))) hn
            cases he
            exact hty rfl
          · refine ⟨fun hb => ?_, fun _ => ⟨_, if_neg hty, rfl, rfl, rfl, rfl, rfl⟩⟩
            exfalso
            rcases hb with hb | hb | hb | hb
            · exact hp hb
            · exact hv hb
            · exact ht hb
            · apply hb
              rw [not_not.mp hty]

/-- C10 at a failing call (nil position) and at a succeeding one, a
`Float64Array` position and velocity with a `float64.Range`. -/
theorem NewParticle_fails_or_builds_witness :
    (∃ e, NewParticle .nil (.float64Array Example.vb)
        (.float64 { min := Example.va, max := Example.vb }) { id := 0 } = .error e) ∧
    (∃ p, NewParticle (.float64Array Example.va) (.float64Array Example.vb)
        (.float64 { min := Example.va, max := Example.vb }) { id := 0 } = .ok p ∧
        p.Position = .float64Array Example.va ∧ p.Velocity = .float64Array Example.vb ∧
        p.Range = .float64 { min := Example.va, max := Example.vb } ∧
        p.Best = .nil ∧ p.EvalValue = .nil) :=
  ⟨(NewParticle_fails_or_builds .nil (.float64Array Example.vb)
      (.float64 { min := Example.va, max := Example.vb }) { id := 0 }).1 (Or.inl rfl),
   (NewParticle_fails_or_builds (.float64Array Example.va) (.float64Array Example.vb)
      (.float64 { min := Example.va, max := Example.vb }) { id := 0 }).2 (by decide)⟩

end pso

/-! ## Claims about one iteration of `Particle.Start` -/

namespace pso

open Example

/-- C11 (as the code behaves): with position `{1, 2}`, velocity `{5, 7}` and
bounds `[-10, 10]` in both dimensions, one iteration leaves the position holding
`{5, 7}`, the velocity alone, not `{6, 9}`: the clone that the velocity is added
to holds zeros.  With upper bounds `{1/2, 1/2}` the candidate is rejected and the
position is left holding `{0, 0}`, not `{1, 2}`, while the velocity is updated. -/
theorem iteration_position_is_velocity :
    (Values.float64Array (vec 0)).toList swarmHeap = some [1, 2] ∧
    (Values.float64Array (vec 2)).toList swarmHeap = some [5, 7] ∧
    (Values.float64Array (vec 4)).toList swarmHeap = some [-10, -10] ∧
    (Values.float64Array (vec 6)).toList swarmHeap = some [10, 10] ∧
    positionAfter (particle.iteration (.float64 bowl) (some param) (.float64Array (vec 10))
      drawHalf drawQuarter swarmHeap) = .ok (some [5, 7]) ∧
    positionAfter (tightParticle.iteration (.float64 bowl) (some param)
      (.float64Array (vec 10)) drawHalf drawQuarter swarmHeap) = .ok (some [0, 0]) ∧
    velocityAfter (tightParticle.iteration (.float64 bowl) (some param)
      (.float64Array (vec 10)) drawHalf drawQuarter swarmHeap) = .ok (some [5 / 2, 7 / 2]) := by
  decide!

/-- C12 (as the code behaves): with `v = {5, 7}`, `w = c1 = c2 = {1/2, 1/2}`,
`r1 = {1/2, 1/2}`, `r2 = {1/4, 1/4}`, personal best `{3, -2}`, global best
`{4, -1}` and position `{5, 7}` after the position step, one iteration leaves the
velocity holding `{5/8, 7/8}`, which is `v*w + r1*c1*(0 - x) + r2*c2*(0 - x)`;
the stated formula gives `{15/8, 1/4}`. -/
theorem iteration_velocity_ignores_bests :
    (Values.float64Array (vec 8)).toList swarmHeap = some [3, -2] ∧
    (Values.float64Array (vec 10)).toList swarmHeap = some [4, -1] ∧
    velocityAfter (particle.iteration (.float64 bowl) (some param) (.float64Array (vec 10))
      drawHalf drawQuarter swarmHeap) = .ok (some [5 / 8, 7 / 8]) ∧
    [(5 : ℚ) * (1 / 2) + (1 / 2) * (1 / 2) * (3 - 5) + (1 / 4) * (1 / 2) * (4 - 5),
     (7 : ℚ) * (1 / 2) + (1 / 2) * (1 / 2) * (-2 - 7) + (1 / 4) * (1 / 2) * (-1 - 7)] =
      [15 / 8, 1 / 4] := by
  decide!

/-- C13 (as the code behaves): a particle whose personal best `{3, -2}` has
fitness `0` under `(x - 3)^2 + (y + 2)^2` keeps the same vector as personal best
through one iteration and sends no report, yet that vector then holds `{0, 0}`
and has fitness `13`: the personal best got worse. -/
theorem iteration_best_gets_worse :
    TargetFunc.Eval (.float64 bowl) particle.best swarmHeap = .ok (.float64 0) ∧
    bestAfter (.float64 bowl) (particle.iteration (.float64 bowl) (some param)
      (.float64Array (vec 10)) drawHalf drawQuarter swarmHeap) =
      .ok (particle.best, some [0, 0], .float64 13, none) := by
  decide!

/-- C14 (as the code behaves): the particle that `NewParticle` returns for
position `{1, 2}`, velocity `{5, 7}` and the bounds above has a nil personal
best, and its first iteration, started with global best `{4, -1}`, ends in a
nil dereference. -/
theorem first_iteration_panics :
    (NewParticle (.float64Array (vec 0)) (.float64Array (vec 2)) box { id := 0 }).bind
      (fun p => positionAfter (p.iteration (.float64 bowl) (some param)
        (.float64Array (vec 10)) drawHalf drawQuarter swarmHeap)) =
      .error "runtime error: invalid memory address or nil pointer dereference" := by
  decide!

/-- C17 (as the code behaves): one iteration leaves `w`, `c1` and `c2` as they
were but the global-best vector it received, `{4, -1}`, holding `{0, 0}`. -/
theorem iteration_zeroes_global_best :
    (Values.float64Array (vec 10)).toList swarmHeap = some [4, -1] ∧
    elementsAfter (.float64Array (vec 10)) (particle.iteration (.float64 bowl) (some param)
      (.float64Array (vec 10)) drawHalf drawQuarter swarmHeap) = .ok (some [0, 0]) ∧
    elementsAfter param.W (particle.iteration (.float64 bowl) (some param)
      (.float64Array (vec 10)) drawHalf drawQuarter swarmHeap) = .ok (some [1 / 2, 1 / 2]) ∧
    elementsAfter param.C1 (particle.iteration (.float64 bowl) (some param)
      (.float64Array (vec 10)) drawHalf drawQuarter swarmHeap) = .ok (some [1 / 2, 1 / 2]) ∧
    elementsAfter param.C2 (particle.iteration (.float64 bowl) (some param)
      (.float64Array (vec 10)) drawHalf drawQuarter swarmHeap) = .ok (some [1 / 2, 1 / 2]) := by
  decide!

/-- C18 (as the code behaves): for a solver holding the particle above, whose
own channel is channel 0, and `bestCh` being channel 1, every receive of
`Solver.Start` and of its workers is from channel 1 and every send is on
channel 0, so no value can pass over either channel. -/
theorem Start_channels_are_crossed :
    Solver.StartOps solver { id := 1 } =
      [.recv { id := 1 }, .recv { id := 1 }, .send { id := 0 }, .send { id := 0 },
       .recv { id := 1 }] ∧
    canPass (Solver.StartOps solver { id := 1 }) { id := 0 } = false ∧
    canPass (Solver.StartOps solver { id := 1 }) { id := 1 } = false := by
  decide!

end pso

/-! ## The defects, for every input -/

namespace pso

/-- The position step leaves the personal best as it was. -/
theorem updatePosition_best (p p1 : Particle) (h h1 : Heap)
    (hup : p.updatePosition h = .ok (p1, h1)) : p1.best = p.best := by
  simp only [Particle.updatePosition, bind, Except.bind, pure, Except.pure] at hup
  split at hup
  · cases hup
  · split at hup
    · cases hup
    · split at hup
      · cases hup
      · split_ifs at hup <;> cases hup <;> rfl

/-- The velocity update of a particle whose personal best is nil panics. -/
theorem updateVelocity_nil_best (p : Particle) (hb : p.best = .nil) (param : Option Param)
    (globalBest : Values) (d1 d2 : Nat → ℚ) (h : Heap) :
    ∃ e, p.updateVelocity param globalBest d1 d2 h = .error e := by
  simp only [Particle.updateVelocity, bind, Except.bind, hb, Values.Clone]
  repeat' split
  all_goals exact ⟨_, rfl⟩

/-- Every iteration of a particle whose personal best is nil, as `NewParticle`
leaves it, panics. -/
theorem iteration_nil_best (p : Particle) (hb : p.best = .nil) (f : TargetFunc)
    (param : Option Param) (globalBest : Values) (d1 d2 : Nat → ℚ) (h : Heap) :
    ∃ e, p.iteration f param globalBest d1 d2 h = .error e := by
  simp only [Particle.iteration, bind, Except.bind]
  cases hup : p.updatePosition h with
  | error e => exact ⟨e, rfl⟩
  | ok r =>
    obtain ⟨p1, h1⟩ := r
    have hb1 : p1.best = .nil := (updatePosition_best p p1 h h1 hup).trans hb
    obtain ⟨e, he⟩ := updateVelocity_nil_best p1 hb1 param globalBest d1 d2 h1
    exact ⟨e, by simp only [he]⟩

/-- A receive among the operations of the workers is from `bestCh`, and a send
is on the channel of one of the particles. -/
theorem mem_workerOps (bestCh : Chan) (ps : List (Option Particle)) (c : Chan) :
    (ChanOp.recv c ∈ workerOps bestCh ps → c = bestCh) ∧
    (ChanOp.send c ∈ workerOps bestCh ps → ∃ p, some p ∈ ps ∧ p.ch = c) := by
  induction ps with
  | nil => exact ⟨(fun hx => by cases hx), fun hx => by cases hx⟩
  | cons q ps ih =>
    cases q with
    | none =>
      simp only [workerOps]
      exact ⟨ih.1, fun hx => by
        obtain ⟨p, hp, hpc⟩ := ih.2 hx
        exact ⟨p, List.mem_cons_of_mem _ hp, hpc⟩⟩
    | some q =>
      simp only [workerOps, Particle.StartOps, List.cons_append, List.nil_append,
        List.mem_cons, ChanOp.recv.injEq, ChanOp.send.injEq]
      constructor
      · rintro (hc | hc | hc | hc)
        · exact hc
        · exact hc
        · cases hc
        · exact ih.1 hc
      · rintro (hc | hc | hc | hc)
        · cases hc
        · cases hc
        · exact ⟨q, Or.inl rfl, hc.symm⟩
        · obtain ⟨p, hp, hpc⟩ := ih.2 hc
          exact ⟨p, Or.inr hp, hpc⟩

/-- A receive among the operations of the coordination loop is from `bestCh`,
and a send is on the channel of one of the particles. -/
theorem mem_coordinatorOps (bestCh : Chan) (ps : List (Option Particle)) (c : Chan) :
    (ChanOp.recv c ∈ coordinatorOps bestCh ps → c = bestCh) ∧
    (ChanOp.send c ∈ coordinatorOps bestCh ps → ∃ p, some p ∈ ps ∧ p.ch = c) := by
  induction ps with
  | nil =>
    simp only [coordinatorOps, List.mem_singleton, ChanOp.recv.injEq]
    exact ⟨fun hc => hc, fun hx => by cases hx⟩
  | cons q ps ih =>
    cases q with
    | none =>
      simp only [coordinatorOps]
      exact ⟨ih.1, fun hx => by
        obtain ⟨p, hp, hpc⟩ := ih.2 hx
        exact ⟨p, List.mem_cons_of_mem _ hp, hpc⟩⟩
    | some q =>
      simp only [coordinatorOps, Particle.Channel, List.mem_cons, ChanOp.send.injEq]
      constructor
      · rintro (hc | hc)
        · cases hc
        · exact ih.1 hc
      · rintro (hc | hc)
        · exact ⟨q, Or.inl rfl, hc.symm⟩
        · obtain ⟨p, hp, hpc⟩ := ih.2 hc
          exact ⟨p, Or.inr hp, hpc⟩

/-- In every run of `Solver.Start` whose `bestCh` is not the channel of one of
its particles, no value can pass over any channel of `Values`: the receives are
all from `bestCh` and the sends all on the particles' own channels. -/
theorem StartOps_cannot_pass (s : Solver) (bestCh : Chan)
    (hfresh : ∀ p, some p ∈ rangeParticles s.particles → p.ch ≠ bestCh) (c : Chan) :
    canPass (s.StartOps bestCh) c = false := by
  simp only [canPass, Bool.and_eq_false_imp, decide_eq_true_eq, decide_eq_false_iff_not,
    Solver.StartOps, List.mem_append]
  intro hsend hrecv
  have hc : c = bestCh := by
    rcases hrecv with hr | hr
    · exact (mem_workerOps bestCh _ c).1 hr
    · exact (mem_coordinatorOps bestCh _ c).1 hr
  have hp : ∃ p, some p ∈ rangeParticles s.particles ∧ p.ch = c := by
    rcases hsend with hs | hs
    · exact (mem_workerOps bestCh _ c).2 hs
    · exact (mem_coordinatorOps bestCh _ c).2 hs
  obtain ⟨p, hmem, hpc⟩ := hp
  exact hfresh p hmem (hpc.trans hc)

end pso

/-! ## The coordination loop of `Solver.Start` -/

namespace pso

/-- `CompareTo` on two `float64` values, strictly smaller receiver. -/
theorem compareTo_of_lt {a b : ℚ} (hab : a < b) :
    EvalValue.CompareTo (.float64 a) (.float64 b) = .ok (-1) := by
  have hng : ¬ a > b := not_lt.mpr (le_of_lt hab)
  simp only [EvalValue.CompareTo, float64.EvalValue.CompareTo, hng, hab, if_true, if_false]

/-- `CompareTo` on two `float64` values, receiver not smaller. -/
theorem compareTo_of_not_lt {a b : ℚ} (hab : ¬ a < b) :
    ∃ c, EvalValue.CompareTo (.float64 a) (.float64 b) = .ok c ∧ 0 ≤ c := by
  by_cases hgt : a > b
  · exact ⟨1, by simp only [EvalValue.CompareTo, float64.EvalValue.CompareTo, hgt, if_true],
      by decide⟩
  · exact ⟨0, by simp only [EvalValue.CompareTo, float64.EvalValue.CompareTo, hgt, hab,
      if_false], le_refl 0⟩

/-- `CompareTo` of a value with itself is `0`. -/
theorem compareTo_self (a : ℚ) :
    EvalValue.CompareTo (.float64 a) (.float64 a) = .ok 0 := by
  simp only [EvalValue.CompareTo, float64.EvalValue.CompareTo, gt_iff_lt, lt_irrefl, if_false]

/-- The first report is adopted. -/
theorem handle_first (s : Solver) (g : Heap → float64.Float64Array → ℚ)
    (hf : s.f = .float64 g) (a : float64.Float64Array) (h : Heap) :
    s.handle .nil (.float64Array a) h =
      .ok ({ s with best := .float64Array a }, .float64 (g h a), true,
        broadcast (rangeParticles s.particles) (.float64Array a)) := by
  simp only [Solver.handle, Solver.TargetFunc, hf, TargetFunc.Eval, float64.TargetFunc.Eval,
    adopts, if_true]

/-- A strictly better report is adopted. -/
theorem handle_better (s : Solver) (g : Heap → float64.Float64Array → ℚ)
    (hf : s.f = .float64 g) (a : float64.Float64Array) (h : Heap) (m : ℚ) (hlt : g h a < m) :
    s.handle (.float64 m) (.float64Array a) h =
      .ok ({ s with best := .float64Array a }, .float64 (g h a), true,
        broadcast (rangeParticles s.particles) (.float64Array a)) := by
  have hne : ¬ (EvalValue.float64 m = EvalValue.nil) := fun e => by cases e
  simp only [Solver.handle, Solver.TargetFunc, hf, TargetFunc.Eval, float64.TargetFunc.Eval,
    adopts, hne, if_false, compareTo_of_lt hlt]
  rfl

/-- A report that is not strictly better changes nothing. -/
theorem handle_not_better (s : Solver) (g : Heap → float64.Float64Array → ℚ)
    (hf : s.f = .float64 g) (a : float64.Float64Array) (h : Heap) (m : ℚ)
    (hlt : ¬ g h a < m) :
    s.handle (.float64 m) (.float64Array a) h = .ok (s, .float64 m, false, []) := by
  have hne : ¬ (EvalValue.float64 m = EvalValue.nil) := fun e => by cases e
  obtain ⟨c, hc, hc0⟩ := compareTo_of_not_lt hlt
  have hd : decide (c < 0) = false := by
    simp only [decide_eq_false_iff_not, not_lt]; exact hc0
  simp only [Solver.handle, Solver.TargetFunc, hf, TargetFunc.Eval, float64.TargetFunc.Eval,
    adopts, hne, if_false, hc, hd]

end pso

namespace pso

/-- Unfolding of the loop at a report that arrives before any stop signal. -/
theorem coordinate_cons_arrival (s : Solver) (bv : EvalValue) (a : float64.Float64Array)
    (h : Heap) (rest : List Event) (s1 s2 : Solver) (bv1 : EvalValue) (ad : Bool)
    (sends : List Action) (steps : List Step) (returned : Bool)
    (h1 : s.handle bv (.float64Array a) h = .ok (s1, bv1, ad, sends))
    (h2 : s1.coordinate bv1 rest = .ok (s2, steps, returned)) :
    s.coordinate bv (Event.arrival (a, h) :: rest) =
      .ok (s2, { report := .float64Array a, before := bv, after := bv1, adopted := ad,
                 best := s1.best, actions := sends } :: steps, returned) := by
  simp only [Solver.coordinate, Event.arrival, h1, h2, Bool.false_eq_true, if_false]

/-- Unfolding of the loop at the report after which `done` is read as true. -/
theorem coordinate_cons_done (s : Solver) (bv : EvalValue) (a : float64.Float64Array)
    (h : Heap) (rest : List Event) (s1 : Solver) (bv1 : EvalValue) (ad : Bool)
    (sends : List Action)
    (h1 : s.handle bv (.float64Array a) h = .ok (s1, bv1, ad, sends)) :
    s.coordinate bv (Event.float64 (a, h, true) :: rest) =
      .ok (s1, [{ report := .float64Array a, before := bv, after := bv1, adopted := ad,
                  best := s1.best,
                  actions := sends ++ closeAll (rangeParticles s1.particles) }], true) := by
  simp only [Solver.coordinate, Event.float64, h1, if_true]

/-- What lines 159-171 do with a `Float64Array` report when `bestValue` is nil or
a `float64` value. -/
theorem handle_spec (s : Solver) (g : Heap → float64.Float64Array → ℚ)
    (hf : s.f = .float64 g) (a : float64.Float64Array) (h : Heap) (bv : EvalValue)
    (hbv : bv = .nil ∨ ∃ m, bv = .float64 m) :
    ∃ s1 m1 ad, s.handle bv (.float64Array a) h =
        .ok (s1, .float64 m1, ad,
          if ad = true then broadcast (rangeParticles s.particles) (.float64Array a) else []) ∧
      s1.f = s.f ∧ s1.particles = s.particles ∧
      (ad = true → s1.best = .float64Array a ∧ m1 = g h a ∧
        (bv = .nil ∨ ∃ m, bv = .float64 m ∧ m1 < m)) ∧
      (ad = false → s1 = s ∧ bv = .float64 m1 ∧ m1 ≤ g h a) := by
  rcases hbv with hnil | ⟨m, hm⟩
  · subst hnil
    exact ⟨_, _, true, handle_first s g hf a h, rfl, rfl,
      fun _ => ⟨rfl, rfl, Or.inl rfl⟩, fun hc => by cases hc⟩
  · subst hm
    by_cases hlt : g h a < m
    · exact ⟨_, _, true, handle_better s g hf a h m hlt, rfl, rfl,
        fun _ => ⟨rfl, rfl, Or.inr ⟨m, rfl, hlt⟩⟩, fun hc => by cases hc⟩
    · exact ⟨_, _, false, handle_not_better s g hf a h m hlt, rfl, rfl,
        (fun hc => by cases hc), fun _ => ⟨rfl, rfl, not_lt.mp hlt⟩⟩

/-- The sends of a broadcast contain no `close`. -/
theorem broadcast_no_close (ps : List (Option Particle)) (v : Values) :
    ∀ x ∈ broadcast ps v, x.isClose = false := by
  induction ps with
  | nil => intro x hx; cases hx
  | cons p ps ih =>
    cases p with
    | none => simpa only [broadcast] using ih
    | some q =>
      intro x hx
      simp only [broadcast, List.mem_cons] at hx
      rcases hx with hx | hx
      · subst hx; rfl
      · exact ih x hx

end pso

namespace pso

/-- The loop on reports that arrive one after another without a stop signal,
entered with a `float64` value `m` in `bestValue`: it handles every report and
waits for the next; each step leaves `bestValue` no worse and broadcasts exactly
when it adopts; the adopted values improve strictly, starting below `m`; and
the solver ends with its old best when no report beats `m`, otherwise with the
earliest report of least fitness. -/
theorem coordinate_arrivals (g : Heap → float64.Float64Array → ℚ) :
    ∀ (rs : List (float64.Float64Array × Heap)) (s : Solver) (m : ℚ), s.f = .float64 g →
    ∃ s' steps, s.coordinate (.float64 m) (rs.map Event.arrival) = .ok (s', steps, false) ∧
      steps.length = rs.length ∧
      (∀ st ∈ steps,
        (∃ c, st.after.CompareTo st.before = .ok c ∧ c ≤ 0) ∧
        st.actions = (if st.adopted = true
          then broadcast (rangeParticles s.particles) st.report else []) ∧
        (st.adopted = true → st.best = st.report)) ∧
      List.Chain (fun x y => EvalValue.CompareTo y x = .ok (-1)) (.float64 m)
        ((steps.filter (fun st => st.adopted)).map (fun st => st.after)) ∧
      ((s'.best = s.best ∧ ∀ r ∈ rs, m ≤ fitness g r) ∨
       (∃ (k : Nat) (r : float64.Float64Array × Heap), rs[k]? = some r ∧ s'.best = .float64Array r.1 ∧ fitness g r < m ∧
          (∀ (i : Nat) (r' : float64.Float64Array × Heap), rs[i]? = some r' → fitness g r ≤ fitness g r') ∧
          (∀ (j : Nat) (r' : float64.Float64Array × Heap), j < k → rs[j]? = some r' → fitness g r < fitness g r'))) := by
  intro rs
  induction rs with
  | nil =>
    intro s m _
    exact ⟨s, [], rfl, rfl, (fun st hst => by cases hst), List.Chain.nil,
      Or.inl ⟨rfl, fun r hr => by cases hr⟩⟩
  | cons r0 rest ih =>
    intro s m hf
    obtain ⟨a, h⟩ := r0
    obtain ⟨s1, m1, ad, hrun, hf1, hp1, had, hnad⟩ :=
      handle_spec s g hf a h (.float64 m) (Or.inr ⟨m, rfl⟩)
    obtain ⟨s', steps, hrun2, hlen, hsteps, hchain, hbest⟩ := ih s1 m1 (hf1.trans hf)
    refine ⟨s', _, coordinate_cons_arrival s _ a h _ s1 s' _ ad _ steps false hrun hrun2,
      ?_, ?_, ?_, ?_⟩
    · simp only [List.length_cons, hlen]
    · intro st hst
      simp only [List.mem_cons] at hst
      rcases hst with hst | hst
      · subst hst
        refine ⟨?_, rfl, ?_⟩
        · cases ad with
          | true =>
            obtain ⟨_, _, hb⟩ := had rfl
            rcases hb with hb | ⟨m', hm', hlt⟩
            · cases hb
            · cases hm'
              exact ⟨-1, compareTo_of_lt hlt, by decide⟩
          | false =>
            obtain ⟨_, hb, _⟩ := hnad rfl
            cases hb
            exact ⟨0, compareTo_self m, le_refl 0⟩
        · intro hadopt
          exact (had hadopt).1
      · rw [← hp1]
        exact hsteps st hst
    · cases ad with
      | true =>
        obtain ⟨_, _, hb⟩ := had rfl
        rcases hb with hb | ⟨m', hm', hlt⟩
        · cases hb
        · cases hm'
          simp only [List.filter_cons, if_true, List.map_cons]
          exact List.Chain.cons (compareTo_of_lt hlt) hchain
      | false =>
        obtain ⟨_, hb, _⟩ := hnad rfl
        cases hb
        simp only [List.filter_cons, Bool.false_eq_true, if_false]
        exact hchain
    · cases ad with
      | true =>
        obtain ⟨hb1, hm1, hb⟩ := had rfl
        have hlt : g h a < m := by
          rcases hb with hb | ⟨m', hm', hlt⟩
          · cases hb
          · cases hm'
            rw [← hm1]; exact hlt
        subst hm1
        rcases hbest with ⟨hsame, hall⟩ | ⟨k, r, hk, hbr, hrlt, hmin, hfirst⟩
        · refine Or.inr ⟨0, (a, h), List.getElem?_cons_zero, hsame.trans hb1, hlt, ?_, ?_⟩
          · intro i r' hi
            cases i with
            | zero =>
              simp only [List.getElem?_cons_zero, Option.some.injEq] at hi
              subst hi; exact le_refl _
            | succ i =>
              simp only [List.getElem?_cons_succ] at hi
              exact hall r' (List.getElem?_mem hi)
          · intro j r' hj _
            exact absurd hj (Nat.not_lt_zero j)
        · refine Or.inr ⟨k + 1, r, by simp only [List.getElem?_cons_succ]; exact hk, hbr,
            lt_trans hrlt hlt, ?_, ?_⟩
          · intro i r' hi
            cases i with
            | zero =>
              simp only [List.getElem?_cons_zero, Option.some.injEq] at hi
              subst hi; exact le_of_lt hrlt
            | succ i =>
              simp only [List.getElem?_cons_succ] at hi
              exact hmin i r' hi
          · intro j r' hj hjr
            cases j with
            | zero =>
              simp only [List.getElem?_cons_zero, Option.some.injEq] at hjr
              subst hjr; exact hrlt
            | succ j =>
              simp only [List.getElem?_cons_succ] at hjr
              exact hfirst j r' (by omega) hjr
      | false =>
        obtain ⟨hs1, hb, hle⟩ := hnad rfl
        cases hb
        subst hs1
        rcases hbest with ⟨hsame, hall⟩ | ⟨k, r, hk, hbr, hrlt, hmin, hfirst⟩
        · refine Or.inl ⟨hsame, ?_⟩
          intro r hr
          simp only [List.mem_cons] at hr
          rcases hr with hr | hr
          · subst hr; exact hle
          · exact hall r hr
        · refine Or.inr ⟨k + 1, r, by simp only [List.getElem?_cons_succ]; exact hk, hbr,
            hrlt, ?_, ?_⟩
          · intro i r' hi
            cases i with
            | zero =>
              simp only [List.getElem?_cons_zero, Option.some.injEq] at hi
              subst hi; exact le_trans (le_of_lt hrlt) hle
            | succ i =>
              simp only [List.getElem?_cons_succ] at hi
              exact hmin i r' hi
          · intro j r' hj hjr
            cases j with
            | zero =>
              simp only [List.getElem?_cons_zero, Option.some.injEq] at hjr
              subst hjr; exact lt_of_lt_of_le hrlt hle
            | succ j =>
              simp only [List.getElem?_cons_succ] at hjr
              exact hfirst j r' (by omega) hjr

end pso

namespace pso

/-- Step `k` of the loop handles report `k`, and when it adopts the report the
new `bestValue` is the fitness of that report. -/
theorem coordinate_arrivals_fitness (g : Heap → float64.Float64Array → ℚ) :
    ∀ (rs : List (float64.Float64Array × Heap)) (s : Solver) (m : ℚ) (s' : Solver)
      (steps : List Step), s.f = .float64 g →
      s.coordinate (.float64 m) (rs.map Event.arrival) = .ok (s', steps, false) →
      ∀ (k : Nat) (st : Step) (r : float64.Float64Array × Heap),
        steps[k]? = some st → rs[k]? = some r →
        st.report = .float64Array r.1 ∧
          (st.adopted = true → st.after = .float64 (fitness g r)) := by
  intro rs
  induction rs with
  | nil =>
    intro s m s' steps _ _ k st r _ hr
    cases hr
  | cons r0 rest ih =>
    intro s m s' steps hf hrun k st r hst hr
    obtain ⟨a, h⟩ := r0
    obtain ⟨s1, m1, ad, hrun1, hf1, _, had, _⟩ :=
      handle_spec s g hf a h (.float64 m) (Or.inr ⟨m, rfl⟩)
    obtain ⟨s2, steps2, hrun2, _⟩ := coordinate_arrivals g rest s1 m1 (hf1.trans hf)
    have heq := coordinate_cons_arrival s _ a h _ s1 s2 _ ad _ steps2 false hrun1 hrun2
    rw [List.map_cons, heq] at hrun
    simp only [Except.ok.injEq, Prod.mk.injEq, and_true] at hrun
    obtain ⟨hs', hsteps⟩ := hrun
    subst hs' hsteps
    cases k with
    | zero =>
      simp only [List.getElem?_cons_zero, Option.some.injEq] at hst hr
      subst hst hr
      exact ⟨rfl, fun hadopt => by rw [(had hadopt).2.1]; rfl⟩
    | succ k =>
      simp only [List.getElem?_cons_succ] at hst hr
      exact ih s1 m1 s2 steps2 (hf1.trans hf) hrun2 k st r hst hr

/-- The coordination loop from its start, on reports that arrive without a stop
signal: everything the claims about it need. -/
theorem Start_arrivals (g : Heap → float64.Float64Array → ℚ) (s : Solver)
    (hf : s.f = .float64 g) (rs : List (float64.Float64Array × Heap)) :
    ∃ s' steps, s.Start (rs.map Event.arrival) = .ok (s', steps, false) ∧
      steps.length = rs.length ∧
      (∀ st ∈ steps,
        (st.before ≠ .nil → ∃ c, st.after.CompareTo st.before = .ok c ∧ c ≤ 0) ∧
        st.actions = (if st.adopted = true
          then broadcast (rangeParticles s.particles) st.report else []) ∧
        (st.adopted = true → st.best = st.report)) ∧
      List.Chain' (fun x y => EvalValue.CompareTo y x = .ok (-1))
        ((steps.filter (fun st => st.adopted)).map (fun st => st.after)) ∧
      (∀ (k : Nat) (st : Step) (r : float64.Float64Array × Heap),
        steps[k]? = some st → rs[k]? = some r →
        st.report = .float64Array r.1 ∧
          (st.adopted = true → st.after = .float64 (fitness g r))) ∧
      ((rs = [] ∧ s'.best = s.best) ∨
       (∃ (k : Nat) (r : float64.Float64Array × Heap), rs[k]? = some r ∧
          s'.best = .float64Array r.1 ∧
          (∀ (i : Nat) (r' : float64.Float64Array × Heap),
            rs[i]? = some r' → fitness g r ≤ fitness g r') ∧
          (∀ (j : Nat) (r' : float64.Float64Array × Heap),
            j < k → rs[j]? = some r' → fitness g r < fitness g r'))) := by
  cases rs with
  | nil =>
    exact ⟨s, [], rfl, rfl, (fun st hst => by cases hst), trivial,
      (fun k st r hst _ => by cases hst), Or.inl ⟨rfl, rfl⟩⟩
  | cons r0 rest =>
    obtain ⟨a, h⟩ := r0
    have hrun1 := handle_first s g hf a h
    obtain ⟨s', steps, hrun2, hlen, hsteps, hchain, hbest⟩ :=
      coordinate_arrivals g rest { s with best := .float64Array a } (g h a) hf
    have hfit := coordinate_arrivals_fitness g rest { s with best := .float64Array a } (g h a)
      s' steps hf hrun2
    have heq := coordinate_cons_arrival s .nil a h _ _ s' _ true _ steps false hrun1 hrun2
    refine ⟨s', _, heq, ?_, ?_, ?_, ?_, ?_⟩
    · simp only [List.length_cons, hlen]
    · intro st hst
      simp only [List.mem_cons] at hst
      rcases hst with hst | hst
      · subst hst
        exact ⟨fun hne => absurd rfl hne, rfl, fun _ => rfl⟩
      · obtain ⟨h1, h2, h3⟩ := hsteps st hst
        exact ⟨fun _ => h1, h2, h3⟩
    · simp only [List.filter_cons, if_true, List.map_cons]
      exact hchain
    · intro k st r hst hr
      cases k with
      | zero =>
        simp only [List.getElem?_cons_zero, Option.some.injEq] at hst hr
        subst hst hr
        exact ⟨rfl, fun _ => rfl⟩
      | succ k =>
        simp only [List.getElem?_cons_succ] at hst hr
        exact hfit k st r hst hr
    · right
      rcases hbest with ⟨hsame, hall⟩ | ⟨k, r, hk, hbr, hrlt, hmin, hfirst⟩
      · refine ⟨0, (a, h), List.getElem?_cons_zero, hsame, ?_, ?_⟩
        · intro i r' hi
          cases i with
          | zero =>
            simp only [List.getElem?_cons_zero, Option.some.injEq] at hi
            subst hi; exact le_refl _
          | succ i =>
            simp only [List.getElem?_cons_succ] at hi
            exact hall r' (List.getElem?_mem hi)
        · intro j r' hj _
          exact absurd hj (Nat.not_lt_zero j)
      · refine ⟨k + 1, r, by simp only [List.getElem?_cons_succ]; exact hk, hbr, ?_, ?_⟩
        · intro i r' hi
          cases i with
          | zero =>
            simp only [List.getElem?_cons_zero, Option.some.injEq] at hi
            subst hi; exact le_of_lt hrlt
          | succ i =>
            simp only [List.getElem?_cons_succ] at hi
            exact hmin i r' hi
        · intro j r' hj hjr
          cases j with
          | zero =>
            simp only [List.getElem?_cons_zero, Option.some.injEq] at hjr
            subst hjr; exact hrlt
          | succ j =>
            simp only [List.getElem?_cons_succ] at hjr
            exact hfirst j r' (by omega) hjr

/-- The recorded loop up to the report after which `done` is read as true: every
earlier report is handled without a `close`, the last one is handled, then the
closes of lines 174-180 are recorded and the loop is left; what would arrive
later is never looked at. -/
theorem coordinate_until_done (g : Heap → float64.Float64Array → ℚ)
    (last : float64.Float64Array × Heap) (post : List Event) :
    ∀ (pre : List (float64.Float64Array × Heap)) (s : Solver) (bv : EvalValue),
      s.f = .float64 g → (bv = .nil ∨ ∃ m, bv = .float64 m) →
      ∃ s' steps final,
        s.coordinate bv (pre.map Event.arrival ++
            Event.float64 (last.1, last.2, true) :: post) = .ok (s', steps ++ [final], true) ∧
        steps.length = pre.length ∧
        final.report = .float64Array last.1 ∧
        s'.best = final.best ∧
        (∃ sends, final.actions = sends ++ closeAll (rangeParticles s.particles) ∧
          ∀ x ∈ sends, x.isClose = false) ∧
        (∀ st ∈ steps, ∀ x ∈ st.actions, x.isClose = false) := by
  intro pre
  induction pre with
  | nil =>
    intro s bv hf hbv
    obtain ⟨s1, m1, ad, hrun1, _, hp1, _, _⟩ := handle_spec s g hf last.1 last.2 bv hbv
    have heq := coordinate_cons_done s bv last.1 last.2 post s1 _ ad _ hrun1
    refine ⟨s1, [], _, heq, rfl, rfl, rfl, ⟨_, by rw [hp1], ?_⟩, fun st hst => by cases hst⟩
    intro x hx
    cases ad with
    | true => exact broadcast_no_close _ _ x hx
    | false => cases hx
  | cons r0 pre ih =>
    intro s bv hf hbv
    obtain ⟨a, h⟩ := r0
    obtain ⟨s1, m1, ad, hrun1, hf1, hp1, _, _⟩ := handle_spec s g hf a h bv hbv
    obtain ⟨s', steps, final, hrun2, hlen, hrep, hbest, hclose, hnone⟩ :=
      ih s1 (.float64 m1) (hf1.trans hf) (Or.inr ⟨m1, rfl⟩)
    have heq := coordinate_cons_arrival s bv a h _ s1 s' _ ad _ (steps ++ [final]) true
      hrun1 hrun2
    refine ⟨s', _ :: steps, final, heq, ?_, hrep, hbest, by rw [← hp1]; exact hclose, ?_⟩
    · simp only [List.length_cons, hlen]
    · intro st hst x hx
      simp only [List.mem_cons] at hst
      rcases hst with hst | hst
      · subst hst
        cases ad with
        | true => exact broadcast_no_close _ _ x hx
        | false => cases hx
      · exact hnone st hst x hx

end pso

namespace pso

/-- The elements visited are those of the slice; a nil slice has none. -/
theorem rangeParticles_eq (ps : Option (List (Option Particle))) :
    rangeParticles ps = ps.getD [] := by
  cases ps with
  | none => rfl
  | some l => rfl

/-- The broadcast is one send for each non-nil particle, in slice order, on the
channel held in the particle's field `ch`. -/
theorem broadcast_eq (ps : List (Option Particle)) (v : Values) :
    broadcast ps v = (ps.filterMap id).map (fun p => Action.send p.ch v) := by
  induction ps with
  | nil => rfl
  | cons p ps ih =>
    cases p with
    | none =>
      rw [broadcast, ih]
      rfl
    | some q =>
      rw [broadcast, ih]
      rfl

/-- The steps of the loop entered with a `float64` value `m` in `bestValue`, one
by one: the first starts from `m`, every later one from what the step before it
left; a step adopts its report exactly when the fitness of the report compares
`-1` with the `bestValue` it starts from, and a step that does not adopt leaves
`bestValue` and `s.best` as they were. -/
theorem coordinate_arrivals_steps (g : Heap → float64.Float64Array → ℚ) :
    ∀ (rs : List (float64.Float64Array × Heap)) (s : Solver) (m : ℚ) (s' : Solver)
      (steps : List Step), s.f = .float64 g →
      s.coordinate (.float64 m) (rs.map Event.arrival) = .ok (s', steps, false) →
      (∀ (st : Step), steps[(0 : Nat)]? = some st →
        st.before = .float64 m ∧ (st.adopted = false → st.best = s.best)) ∧
      (∀ (k : Nat) (st st' : Step), steps[k]? = some st → steps[k + 1]? = some st' →
        st'.before = st.after ∧ (st'.adopted = false → st'.best = st.best)) ∧
      (∀ (k : Nat) (st : Step) (r : float64.Float64Array × Heap),
        steps[k]? = some st → rs[k]? = some r →
        (st.adopted = true ↔
          EvalValue.CompareTo (.float64 (fitness g r)) st.before = .ok (-1)) ∧
        (st.adopted = false → st.after = st.before) ∧ st.before ≠ .nil) := by
  intro rs
  induction rs with
  | nil =>
    intro s m s' steps _ hrun
    simp only [List.map_nil, Solver.coordinate, Except.ok.injEq, Prod.mk.injEq, and_true]
      at hrun
    obtain ⟨_, hsteps⟩ := hrun
    subst hsteps
    refine ⟨?_, ?_, ?_⟩
    · intro st hst
      rw [List.getElem?_nil] at hst
      cases hst
    · intro k st st' hst
      rw [List.getElem?_nil] at hst
      cases hst
    · intro k st r hst
      rw [List.getElem?_nil] at hst
      cases hst
  | cons r0 rest ih =>
    intro s m s' steps hf hrun
    obtain ⟨a, h⟩ := r0
    obtain ⟨s1, m1, ad, hrun1, hf1, _, had, hnad⟩ :=
      handle_spec s g hf a h (.float64 m) (Or.inr ⟨m, rfl⟩)
    obtain ⟨s2, steps2, hrun2, _⟩ := coordinate_arrivals g rest s1 m1 (hf1.trans hf)
    have heq := coordinate_cons_arrival s _ a h _ s1 s2 _ ad _ steps2 false hrun1 hrun2
    rw [List.map_cons, heq] at hrun
    simp only [Except.ok.injEq, Prod.mk.injEq, and_true] at hrun
    obtain ⟨hs', hsteps⟩ := hrun
    subst hs' hsteps
    obtain ⟨ih0, ihlink, ihstep⟩ := ih s1 m1 s2 steps2 (hf1.trans hf) hrun2
    refine ⟨?_, ?_, ?_⟩
    · intro st hst
      simp only [List.getElem?_cons_zero, Option.some.injEq] at hst
      subst hst
      exact ⟨rfl, fun hna => by rw [(hnad hna).1]⟩
    · intro k st st' hst hst'
      simp only [List.getElem?_cons_succ] at hst'
      cases k with
      | zero =>
        simp only [List.getElem?_cons_zero, Option.some.injEq] at hst
        subst hst
        exact ih0 st' hst'
      | succ k =>
        simp only [List.getElem?_cons_succ] at hst
        exact ihlink k st st' hst hst'
    · intro k st r hst hr
      cases k with
      | zero =>
        simp only [List.getElem?_cons_zero, Option.some.injEq] at hst hr
        subst hst hr
        cases ad with
        | true =>
          obtain ⟨_, hm1, hb⟩ := had rfl
          rcases hb with hb | ⟨m', hm', hlt⟩
          · cases hb
          · cases hm'
            rw [hm1] at hlt
            exact ⟨⟨fun _ => compareTo_of_lt hlt, fun _ => rfl⟩, (fun hc => by cases hc),
              fun hc => by cases hc⟩
        | false =>
          obtain ⟨_, hb, hle⟩ := hnad rfl
          cases hb
          refine ⟨⟨(fun hc => by cases hc), fun hc => ?_⟩, (fun _ => rfl),
            fun hc => by cases hc⟩
          obtain ⟨c, hc', hc0⟩ := compareTo_of_not_lt (not_lt.mpr hle)
          have hc2 : EvalValue.CompareTo (.float64 (g h a)) (.float64 m) = .ok (-1) := hc
          rw [hc'] at hc2
          simp only [Except.ok.injEq] at hc2
          subst hc2
          exact absurd hc0 (by decide)
      | succ k =>
        simp only [List.getElem?_cons_succ] at hst hr
        exact ihstep k st r hst hr

/-- The steps of the coordination loop from its start, one by one: the first
starts from a nil `bestValue`, every later one from what the step before it
left; a step adopts its report exactly when `bestValue` is nil or the fitness of
the report compares `-1` with it, and a step that does not adopt leaves
`bestValue` and `s.best` as they were. -/
theorem Start_arrivals_steps (g : Heap → float64.Float64Array → ℚ) (s : Solver)
    (hf : s.f = .float64 g) (rs : List (float64.Float64Array × Heap)) (s' : Solver)
    (steps : List Step) (hrun : s.Start (rs.map Event.arrival) = .ok (s', steps, false)) :
    (∀ (st : Step), steps[(0 : Nat)]? = some st → st.before = .nil) ∧
    (∀ (k : Nat) (st st' : Step), steps[k]? = some st → steps[k + 1]? = some st' →
      st'.before = st.after ∧ (st'.adopted = false → st'.best = st.best)) ∧
    (∀ (k : Nat) (st : Step) (r : float64.Float64Array × Heap),
      steps[k]? = some st → rs[k]? = some r →
      (st.adopted = true ↔ (st.before = .nil ∨
        EvalValue.CompareTo (.float64 (fitness g r)) st.before = .ok (-1))) ∧
      (st.adopted = false → st.after = st.before)) := by
  cases rs with
  | nil =>
    simp only [Solver.Start, List.map_nil, Solver.coordinate, Except.ok.injEq, Prod.mk.injEq,
      and_true] at hrun
    obtain ⟨_, hsteps⟩ := hrun
    subst hsteps
    refine ⟨?_, ?_, ?_⟩
    · intro st hst
      rw [List.getElem?_nil] at hst
      cases hst
    · intro k st st' hst
      rw [List.getElem?_nil] at hst
      cases hst
    · intro k st r hst
      rw [List.getElem?_nil] at hst
      cases hst
  | cons r0 rest =>
    obtain ⟨a, h⟩ := r0
    have hrun1 := handle_first s g hf a h
    obtain ⟨s2, steps2, hrun2, _⟩ :=
      coordinate_arrivals g rest { s with best := .float64Array a } (g h a) hf
    obtain ⟨ih0, ihlink, ihstep⟩ := coordinate_arrivals_steps g rest
      { s with best := .float64Array a } (g h a) s2 steps2 hf hrun2
    have heq := coordinate_cons_arrival s .nil a h _ _ s2 _ true _ steps2 false hrun1 hrun2
    have hrun' : s.coordinate .nil (Event.arrival (a, h) :: rest.map Event.arrival) =
        .ok (s', steps, false) := hrun
    rw [heq] at hrun'
    simp only [Except.ok.injEq, Prod.mk.injEq, and_true] at hrun'
    obtain ⟨hs', hsteps⟩ := hrun'
    subst hs' hsteps
    refine ⟨?_, ?_, ?_⟩
    · intro st hst
      simp only [List.getElem?_cons_zero, Option.some.injEq] at hst
      subst hst
      rfl
    · intro k st st' hst hst'
      simp only [List.getElem?_cons_succ] at hst'
      cases k with
      | zero =>
        simp only [List.getElem?_cons_zero, Option.some.injEq] at hst
        subst hst
        exact ih0 st' hst'
      | succ k =>
        simp only [List.getElem?_cons_succ] at hst
        exact ihlink k st st' hst hst'
    · intro k st r hst hr
      cases k with
      | zero =>
        simp only [List.getElem?_cons_zero, Option.some.injEq] at hst hr
        subst hst hr
        exact ⟨⟨fun _ => Or.inl rfl, fun _ => rfl⟩, fun hc => by cases hc⟩
      | succ k =>
        simp only [List.getElem?_cons_succ] at hst hr
        obtain ⟨hiff, hkeep, hne⟩ := ihstep k st r hst hr
        refine ⟨⟨fun hadopt => Or.inr (hiff.1 hadopt), fun hor => ?_⟩, hkeep⟩
        rcases hor with hnil | hcmp
        · exact absurd hnil hne
        · exact hiff.2 hcmp

/-- What `NewSolver` returns when it returns. -/
theorem NewSolver_ok {f : TargetFunc} {particles : Option (List (Option Particle))}
    {param : Option Param} {s : Solver} (hs : NewSolver f particles param = .ok s) :
    s = { f := f, particles := particles, param := param, best := .nil } := by
  unfold NewSolver at hs
  split_ifs at hs
  cases hs
  rfl

/-- C15: on a fresh solver and reports `r1..rn` that arrive one after another,
the coordination loop handles all of them, and afterwards `Best()` is nil
exactly when `n = 0`; otherwise it is a report `rk` whose fitness is at most the
fitness of every report and strictly below the fitness of every earlier one. -/
theorem Start_best_is_earliest_least (g : Heap → float64.Float64Array → ℚ)
    (ps : Option (List (Option Particle))) (param : Option Param) (s : Solver)
    (hs : NewSolver (.float64 g) ps param = .ok s)
    (rs : List (float64.Float64Array × Heap)) :
    ∃ s' steps, s.Start (rs.map Event.arrival) = .ok (s', steps, false) ∧
      (s'.Best = .nil ↔ rs = []) ∧
      (rs ≠ [] → ∃ (k : Nat) (r : float64.Float64Array × Heap), rs[k]? = some r ∧
        s'.Best = .float64Array r.1 ∧
        (∀ (i : Nat) (r' : float64.Float64Array × Heap),
          rs[i]? = some r' → fitness g r ≤ fitness g r') ∧
        (∀ (j : Nat) (r' : float64.Float64Array × Heap),
          j < k → rs[j]? = some r' → fitness g r < fitness g r')) := by
  have hf : s.f = .float64 g := by rw [NewSolver_ok hs]
  have hnilbest : s.best = .nil := by rw [NewSolver_ok hs]
  obtain ⟨s', steps, hrun, _, _, _, _, hbest⟩ := Start_arrivals g s hf rs
  refine ⟨s', steps, hrun, ?_, ?_⟩
  · rcases hbest with ⟨hnil, hb⟩ | ⟨k, r, hk, hb, _, _⟩
    · exact ⟨fun _ => hnil, fun _ => hb.trans hnilbest⟩
    · constructor
      · intro h0
        rw [Solver.Best, hb] at h0
        cases h0
      · intro hnil
        subst hnil
        cases hk
  · intro hne
    rcases hbest with ⟨hnil, _⟩ | hex
    · exact absurd hnil hne
    · exact hex

/-- C15 at a solver for `(x - 3)^2 + (y + 2)^2` and the reports `{1, 2}`,
`{3, -2}`, `{3, -2}`. -/
theorem Start_best_is_earliest_least_witness :
    ∃ s' steps, Example.solver.Start
        ([(Example.vec 0, Example.swarmHeap), (Example.vec 8, Example.swarmHeap),
          (Example.vec 8, Example.swarmHeap)].map Event.arrival) = .ok (s', steps, false) ∧
      (s'.Best = .nil ↔
        [(Example.vec 0, Example.swarmHeap), (Example.vec 8, Example.swarmHeap),
          (Example.vec 8, Example.swarmHeap)] = []) ∧
      ([(Example.vec 0, Example.swarmHeap), (Example.vec 8, Example.swarmHeap),
          (Example.vec 8, Example.swarmHeap)] ≠ [] →
        ∃ (k : Nat) (r : float64.Float64Array × Heap),
          [(Example.vec 0, Example.swarmHeap), (Example.vec 8, Example.swarmHeap),
            (Example.vec 8, Example.swarmHeap)][k]? = some r ∧
          s'.Best = .float64Array r.1 ∧
          (∀ (i : Nat) (r' : float64.Float64Array × Heap),
            [(Example.vec 0, Example.swarmHeap), (Example.vec 8, Example.swarmHeap),
              (Example.vec 8, Example.swarmHeap)][i]? = some r' →
            fitness Example.bowl r ≤ fitness Example.bowl r') ∧
          (∀ (j : Nat) (r' : float64.Float64Array × Heap), j < k →
            [(Example.vec 0, Example.swarmHeap), (Example.vec 8, Example.swarmHeap),
              (Example.vec 8, Example.swarmHeap)][j]? = some r' →
            fitness Example.bowl r < fitness Example.bowl r')) :=
  Start_best_is_earliest_least Example.bowl (some [some Example.particle])
    (some Example.param) Example.solver rfl _

/-- C16: on a fresh solver and reports that arrive one after another, the
coordination loop handles every report.  The first step starts from a nil
`bestValue` and every later step from the `bestValue` that the step before it
left.  A step adopts its report exactly when `bestValue` is nil or the fitness
of the report compares `-1` with it; it then leaves that fitness in `bestValue`
and the report in `s.best`, and issues one send of the report for each non-nil
particle of the slice `ps`, in slice order, on that particle's channel `ch`.  A
step that does not adopt issues nothing and leaves `bestValue` and `s.best` as
they were.  So every step leaves a `bestValue` that compares `<= 0` with the one
before it, and the values adopted, which are the values broadcast, improve
strictly. -/
theorem Start_broadcasts_improve (g : Heap → float64.Float64Array → ℚ)
    (ps : Option (List (Option Particle))) (param : Option Param) (s : Solver)
    (hs : NewSolver (.float64 g) ps param = .ok s)
    (rs : List (float64.Float64Array × Heap)) :
    ∃ s' steps, s.Start (rs.map Event.arrival) = .ok (s', steps, false) ∧
      steps.length = rs.length ∧
      (∀ st ∈ steps, st.before ≠ .nil →
        ∃ c, st.after.CompareTo st.before = .ok c ∧ c ≤ 0) ∧
      (∀ st ∈ steps, st.actions =
        (if st.adopted = true
          then ((ps.getD []).filterMap id).map (fun p => Action.send p.ch st.report)
          else [])) ∧
      (∀ st ∈ steps, st.adopted = true → st.best = st.report) ∧
      (∀ (k : Nat) (st : Step) (r : float64.Float64Array × Heap),
        steps[k]? = some st → rs[k]? = some r →
        st.report = .float64Array r.1 ∧
          (st.adopted = true → st.after = .float64 (fitness g r)) ∧
          (st.adopted = true ↔ (st.before = .nil ∨
            EvalValue.CompareTo (.float64 (fitness g r)) st.before = .ok (-1))) ∧
          (st.adopted = false → st.after = st.before)) ∧
      (∀ (st : Step), steps[(0 : Nat)]? = some st → st.before = .nil) ∧
      (∀ (k : Nat) (st st' : Step), steps[k]? = some st → steps[k + 1]? = some st' →
        st'.before = st.after ∧ (st'.adopted = false → st'.best = st.best)) ∧
      List.Chain' (fun x y => EvalValue.CompareTo y x = .ok (-1))
        ((steps.filter (fun st => st.adopted)).map (fun st => st.after)) := by
  have hf : s.f = .float64 g := by rw [NewSolver_ok hs]
  have hp : s.particles = ps := by rw [NewSolver_ok hs]
  obtain ⟨s', steps, hrun, hlen, hsteps, hchain, hfit, _⟩ := Start_arrivals g s hf rs
  obtain ⟨hfirst, hlink, hstep⟩ := Start_arrivals_steps g s hf rs s' steps hrun
  refine ⟨s', steps, hrun, hlen, fun st hst => (hsteps st hst).1, ?_,
    fun st hst => (hsteps st hst).2.2, ?_, hfirst, hlink, hchain⟩
  · intro st hst
    rw [(hsteps st hst).2.1, hp, rangeParticles_eq, broadcast_eq]
  · intro k st r hst hr
    exact ⟨(hfit k st r hst hr).1, (hfit k st r hst hr).2, (hstep k st r hst hr).1,
      (hstep k st r hst hr).2⟩

/-- C16 at a solver for `(x - 3)^2 + (y + 2)^2` holding one particle, and the
reports `{1, 2}`, `{5, 7}`, `{3, -2}`. -/
theorem Start_broadcasts_improve_witness :
    ∃ s' steps, Example.solver.Start
        ([(Example.vec 0, Example.swarmHeap), (Example.vec 2, Example.swarmHeap),
          (Example.vec 8, Example.swarmHeap)].map Event.arrival) = .ok (s', steps, false) ∧
      steps.length = [(Example.vec 0, Example.swarmHeap), (Example.vec 2, Example.swarmHeap),
          (Example.vec 8, Example.swarmHeap)].length ∧
      (∀ st ∈ steps, st.before ≠ .nil →
        ∃ c, st.after.CompareTo st.before = .ok c ∧ c ≤ 0) ∧
      (∀ st ∈ steps, st.actions =
        (if st.adopted = true
          then (((some [some Example.particle] :
              Option (List (Option Particle))).getD []).filterMap id).map
            (fun p => Action.send p.ch st.report)
          else [])) ∧
      (∀ st ∈ steps, st.adopted = true → st.best = st.report) ∧
      (∀ (k : Nat) (st : Step) (r : float64.Float64Array × Heap),
        steps[k]? = some st →
        [(Example.vec 0, Example.swarmHeap), (Example.vec 2, Example.swarmHeap),
          (Example.vec 8, Example.swarmHeap)][k]? = some r →
        st.report = .float64Array r.1 ∧
          (st.adopted = true → st.after = .float64 (fitness Example.bowl r)) ∧
          (st.adopted = true ↔ (st.before = .nil ∨
            EvalValue.CompareTo (.float64 (fitness Example.bowl r)) st.before = .ok (-1))) ∧
          (st.adopted = false → st.after = st.before)) ∧
      (∀ (st : Step), steps[(0 : Nat)]? = some st → st.before = .nil) ∧
      (∀ (k : Nat) (st st' : Step), steps[k]? = some st → steps[k + 1]? = some st' →
        st'.before = st.after ∧ (st'.adopted = false → st'.best = st.best)) ∧
      List.Chain' (fun x y => EvalValue.CompareTo y x = .ok (-1))
        ((steps.filter (fun st => st.adopted)).map (fun st => st.after)) :=
  Start_broadcasts_improve Example.bowl (some [some Example.particle])
    (some Example.param) Example.solver rfl _

/-- C19 (as the code behaves): for the example solver, whose one particle has
channel 0, and `bestCh` being channel 1.  No value can pass over `bestCh`, so the
receive of line 158 never completes and `done` is never read, set or not.  And
were the report `{1, 2}` to arrive with `done` set: the recorded loop adopts it,
issues the send of line 169 on channel 0, then the `close` of channel 0 and is
left; but no worker receives from channel 0, so executed the loop stays at that
send, with `s.best` already assigned: no channel is closed and `Start` does not
return. -/
theorem Start_stays_at_broadcast :
    canPass (Solver.StartOps Example.solver { id := 1 }) { id := 1 } = false ∧
    workerOps { id := 1 } (rangeParticles Example.solver.particles) =
      [.recv { id := 1 }, .recv { id := 1 }, .send { id := 0 }] ∧
    Except.map (fun r => (r.2.1, r.2.2))
        (Solver.Start Example.solver
          [Event.float64 (Example.vec 0, Example.swarmHeap, true)]) =
      .ok ([{ report := .float64Array (Example.vec 0), before := .nil,
              after := .float64 20, adopted := true, best := .float64Array (Example.vec 0),
              actions := [.send { id := 0 } (.float64Array (Example.vec 0)),
                          .close { id := 0 }] }],
        true) ∧
    Solver.StartExecuted Example.solver { id := 1 }
        [Event.float64 (Example.vec 0, Example.swarmHeap, true)] =
      .ok ([{ report := .float64Array (Example.vec 0), before := .nil,
              after := .float64 20, adopted := true, best := .float64Array (Example.vec 0),
              actions := [] }],
        some { id := 0 }, false) := by
  decide!

end pso

/-! ## Unbounded ranges -/

namespace float64

/-- The filling loop of `NewRangeWithInf` leaves the least number in every
element of `min` and the greatest in every element of `max`, when the two
slices share no cell within the length `L`. -/
theorem infLoop_spec {α : Type} [LinearOrder α] [BoundedOrder α] (min max : Float64Array)
    (L : Nat) (hd : ∀ j k, j < L → k < L → min.addr j ≠ max.addr k) :
    ∀ (n i : Nat) (h : HeapOf α), i + n ≤ L →
      (∀ j, j < i → min.read h j = ⊥ ∧ max.read h j = ⊤) →
      ∀ j, j < i + n →
        min.read (infLoop min max n i h) j = ⊥ ∧ max.read (infLoop min max n i h) j = ⊤ := by
  intro n
  induction n with
  | zero =>
    intro i h _ hinv j hj
    exact hinv j (by omega)
  | succ n ih =>
    intro i h hle hinv j hj
    have hstep : ∀ j, j < i + 1 →
        min.read (max.write (min.write h i ⊥) i ⊤) j = ⊥ ∧
        max.read (max.write (min.write h i ⊥) i ⊤) j = ⊤ := by
      intro j hj
      by_cases hji : j = i
      · subst hji
        constructor
        · simp only [Float64Array.read, Float64Array.write,
            Function.update_noteq (hd j j (by omega) (by omega)), Function.update_same]
        · simp only [Float64Array.read, Float64Array.write, Function.update_same]
      · have h1 : min.addr j ≠ min.addr i := by simp only [Float64Array.addr]; omega
        have h2 : max.addr j ≠ max.addr i := by simp only [Float64Array.addr]; omega
        obtain ⟨hmin, hmax⟩ := hinv j (by omega)
        constructor
        · simp only [Float64Array.read, Float64Array.write,
            Function.update_noteq (hd j i (by omega) (by omega)), Function.update_noteq h1]
          exact hmin
        · simp only [Float64Array.read, Float64Array.write,
            Function.update_noteq h2,
            Function.update_noteq (hd i j (by omega) (by omega)).symm]
          exact hmax
    have := ih (i + 1) (max.write (min.write h i ⊥) i ⊤) (by omega) hstep j (by omega)
    simpa only [infLoop] using this

/-- C20: for every length `n` and every `Float64Array` `v` of length `n`,
`NewRangeWithInf(n)` returns a range `r`, and `r.In(v)` returns `true`. -/
theorem NewRangeWithInf_accepts {α : Type} [LinearOrder α] [BoundedOrder α] [Zero α]
    (n : Nat) (h : HeapOf α) (v : Float64Array) (hv : v.len = n) :
    ∃ r h', NewRangeWithInf n h = .ok (r, h') ∧ r.In (.float64Array v) h' = .ok true := by
  have hd : ∀ j k, j < n → k < n →
      (make h n n).1.addr j ≠ (make (make h n n).2 n n).1.addr k := by
    intro j k hj hk
    simp only [make, Float64Array.addr, Option.getD_some]
    omega
  have hfill := infLoop_spec (make h n n).1 (make (make h n n).2 n n).1 n hd n 0
    (make (make h n n).2 n n).2 (by omega) (fun j hj => absurd hj (Nat.not_lt_zero j))
  have hnew : NewRange (make h n n).1 (make (make h n n).2 n n).1 =
      .ok { min := (make h n n).1, max := (make (make h n n).2 n n).1 } := by
    simp [NewRange, make]
  refine ⟨{ min := (make h n n).1, max := (make (make h n n).2 n n).1 },
    infLoop (make h n n).1 (make (make h n n).2 n n).1 n 0 (make (make h n n).2 n n).2,
    by simp only [NewRangeWithInf, hnew], ?_⟩
  obtain ⟨b, hb, hiff⟩ := inLoop_spec
    (infLoop (make h n n).1 (make (make h n n).2 n n).1 n 0 (make (make h n n).2 n n).2)
    v (make h n n).1 (make (make h n n).2 n n).1 n 0
    (by simp only [make]; omega) (by simp only [make]; omega)
  have hlen : ¬ v.len ≠ (make h n n).1.len := by
    simp only [make, ne_eq, not_not]; exact hv
  have htrue : b = true := by
    rw [hiff]
    intro j _ hj
    obtain ⟨hmin, hmax⟩ := hfill j (by omega)
    rw [hmin, hmax]
    exact ⟨bot_le, le_top⟩
  simp only [Range.In]
  rw [if_neg hlen, hv, hb, htrue]

/-- C20 at length 2 and the vector holding `+∞, -7`, read over the extended
rationals. -/
theorem NewRangeWithInf_accepts_witness :
    Example.va.len = 2 ∧
    ∃ r h', NewRangeWithInf 2 Example.extHeap = .ok (r, h') ∧
      r.In (.float64Array Example.va) h' = .ok true :=
  ⟨rfl, NewRangeWithInf_accepts 2 Example.extHeap Example.va rfl⟩

end float64
